import Mathlib

/-!
Verification of the deduplication and consolidation passes of the
gta_sa_utils repository (material_utils.py, mesh_utils.py, texture_utils.py).

The passes operate on Blender's scene database through the bpy API.  The
embedding models the host accessors the code calls:

* datablock identity (Python == on bpy structs compares the wrapped
  datablock) is modelled by a numeric id field carried by every block;
* a datablock's user count is the number of scene references to it plus a
  fakeUsers component covering fake-user flags and references the pass
  does not rewrite;
* bpy collections (bpy.data.materials, bpy.data.images, ...) keep their
  elements sorted by name, so iteration order is name order; where a pass
  never renames the blocks it iterates, iterating the stored list directly
  is equivalent and is used for simplicity;
* IDMaterials.pop(index=i) removes slot i and fixes polygon material
  indices up (BKE_mesh_material_index_remove: every polygon index that is
  nonzero and at least i is decremented);
* assigning a name that another block of the same collection already holds
  makes the host append the first free numeric suffix (.001, .002, ...);
* the md5 digest of a pixel buffer is modelled injectively by the digested
  byte sequence itself (the code treats digest equality as content
  equality).

Coordinates of mesh vertices are only ever compared for equality, never
computed with, so they are modelled as integer triples standing for the
exact stored float bit patterns.
-/

/-! ## Slot compaction: material_utils.remove_duplicate_material_slots -/

/-- A shader node as far as the slot pass reads it: its type tag
(TEX_IMAGE or not) and its image reference (an image datablock id). -/
structure SlotNode where
  texImage : Bool
  image : Option Nat
deriving DecidableEq

/-- A material datablock as read by the slot pass: identity, the
use_nodes flag and the node list of its node tree. -/
structure SlotMaterial where
  id : Nat
  useNodes : Bool
  nodes : List SlotNode
deriving DecidableEq

/-- material_utils.get_first_image_texture: the image of the first
TEX_IMAGE node that carries an image, if the material uses nodes. -/
def get_first_image_texture (m : SlotMaterial) : Option Nat :=
  if m.useNodes then
    (m.nodes.filterMap fun n => if n.texImage then n.image else none).head?
  else none

/-- The active object's data as read by the slot pass: the material slot
list (a slot holds a material or is empty) and, per polygon, its
material_index. -/
structure SlotObj where
  materials : List (Option SlotMaterial)
  polys : List Nat
deriving DecidableEq

/-- The dict key built at material_utils.py line 69: the material
datablock itself paired with its first image texture. -/
def matKey (m : SlotMaterial) : SlotMaterial × Option Nat :=
  (m, get_first_image_texture m)

/-- Association-list lookup (Python dict access for the keys used here:
a key occurs at most once because insertion is guarded by a membership
test). -/
def alookup {α β : Type} [DecidableEq α] : List (α × β) → α → Option β
  | [], _ => none
  | (k, v) :: rest, a => if k = a then some v else alookup rest a

/-- Phase 1 of remove_duplicate_material_slots (lines 56-85): walk the
slot indices from high to low; an empty slot is queued for removal; a
slot whose key was already seen has its polygons rewritten to the stored
index and is queued; a fresh key is recorded with the current index.
The argument c counts the indices still to process: index c-1 is next. -/
def slotWalk (slots : List (Option SlotMaterial)) :
    Nat → List ((SlotMaterial × Option Nat) × Nat) → List Nat → List Nat →
    List Nat × List Nat
  | 0, _, polys, rem => (polys, rem)
  | c + 1, map, polys, rem =>
    match slots.get? c with
    | none => slotWalk slots c map polys rem
    | some none => slotWalk slots c map polys (rem ++ [c])
    | some (some m) =>
      match alookup map (matKey m) with
      | none => slotWalk slots c (map ++ [(matKey m, c)]) polys rem
      | some j =>
          slotWalk slots c map
            (polys.map fun p => if p = c then j else p) (rem ++ [c])

/-- Host accessor obj.data.materials.pop(index=i): removes slot i and
fixes polygon indices up (BKE_mesh_material_index_remove decrements every
nonzero polygon material index that is at least i). -/
def popSlot (o : SlotObj) (i : Nat) : SlotObj :=
  { materials := o.materials.eraseIdx i,
    polys := o.polys.map fun p => if p ≠ 0 ∧ i ≤ p then p - 1 else p }

/-- material_utils.remove_duplicate_material_slots (lines 40-93): phase 1
walks the slots backward rewriting polygons and queueing removals; the
queue is then sorted ascending and applied in reverse, i.e. in descending
index order. -/
def remove_duplicate_material_slots (o : SlotObj) : SlotObj :=
  (((slotWalk o.materials o.materials.length [] o.polys []).2.insertionSort
      (· ≤ ·)).reverse).foldl popSlot
    { materials := o.materials,
      polys := (slotWalk o.materials o.materials.length [] o.polys []).1 }

/-! ### Infrastructure for the slot pass -/

/-- The key of the slot at index i, when that slot carries a material. -/
def keyAt (slots : List (Option SlotMaterial)) (i : Nat) :
    Option (SlotMaterial × Option Nat) :=
  match slots.get? i with
  | some (some m) => some (matKey m)
  | _ => none

/-- Greatest index below c whose slot carries key k. -/
def lastUpto (slots : List (Option SlotMaterial)) :
    Nat → SlotMaterial × Option Nat → Option Nat
  | 0, _ => none
  | c + 1, k => if keyAt slots c = some k then some c else lastUpto slots c k

/-- Greatest slot index carrying key k. -/
def gLast (slots : List (Option SlotMaterial)) (k : SlotMaterial × Option Nat) :
    Option Nat :=
  lastUpto slots slots.length k

/-- A slot index the walk queues for removal: an empty slot, or a
material slot that is not the greatest index of its key. -/
def removableB (slots : List (Option SlotMaterial)) (c : Nat) : Bool :=
  match slots.get? c with
  | some none => true
  | some (some m) => decide (gLast slots (matKey m) ≠ some c)
  | none => false

/-- Removal queue produced by walking indices below c, in descending
order. -/
def remUpto (slots : List (Option SlotMaterial)) : Nat → List Nat
  | 0 => []
  | c + 1 => (if removableB slots c then [c] else []) ++ remUpto slots c

/-- The total polygon rewrite phase 1 performs on indices at least c: a
polygon on a material slot moves to its key's greatest index. -/
def rwFrom (slots : List (Option SlotMaterial)) (c p : Nat) : Nat :=
  if c ≤ p then
    match keyAt slots p with
    | some k => (gLast slots k).getD p
    | none => p
  else p

theorem lastUpto_isLt {slots : List (Option SlotMaterial)} {c : Nat}
    {k : SlotMaterial × Option Nat} {j : Nat} (h : lastUpto slots c k = some j) :
    j < c ∧ keyAt slots j = some k := by
  induction c with
  | zero => simp [lastUpto] at h
  | succ c ih =>
    rw [lastUpto] at h
    split at h
    · case _ hk => cases h; exact ⟨Nat.lt_succ_self _, hk⟩
    · rcases ih h with ⟨h1, h2⟩
      exact ⟨Nat.lt_succ_of_lt h1, h2⟩

theorem lastUpto_ge {slots : List (Option SlotMaterial)} {c p : Nat}
    {k : SlotMaterial × Option Nat} (hp : keyAt slots p = some k) (hlt : p < c) :
    ∃ j, lastUpto slots c k = some j ∧ p ≤ j := by
  induction c with
  | zero => omega
  | succ c ih =>
    rw [lastUpto]
    by_cases hk : keyAt slots c = some k
    · exact ⟨c, by simp [hk], by omega⟩
    · rcases Nat.lt_succ_iff_lt_or_eq.mp hlt with h | h
      · rcases ih h with ⟨j, hj1, hj2⟩
        exact ⟨j, by simp [hk, hj1], hj2⟩
      · subst h; exact absurd hp hk

theorem keyAt_lt {slots : List (Option SlotMaterial)} {p : Nat}
    {k : SlotMaterial × Option Nat} (h : keyAt slots p = some k) :
    p < slots.length := by
  by_contra hge
  have : slots.get? p = none := List.get?_eq_none.mpr (by omega)
  rw [keyAt, this] at h
  exact Option.noConfusion h

theorem gLast_ofKey {slots : List (Option SlotMaterial)} {p : Nat}
    {k : SlotMaterial × Option Nat} (h : keyAt slots p = some k) :
    ∃ j, gLast slots k = some j ∧ p ≤ j ∧ keyAt slots j = some k := by
  rcases lastUpto_ge h (keyAt_lt h) with ⟨j, hj1, hj2⟩
  exact ⟨j, hj1, hj2, (lastUpto_isLt hj1).2⟩

theorem remUpto_mem {slots : List (Option SlotMaterial)} {c x : Nat}
    (h : x ∈ remUpto slots c) : x < c ∧ removableB slots x = true := by
  induction c with
  | zero => simp [remUpto] at h
  | succ c ih =>
    rw [remUpto] at h
    rcases List.mem_append.mp h with h1 | h1
    · split at h1
      · cases List.mem_singleton.mp h1
        exact ⟨Nat.lt_succ_self _, by assumption⟩
      · simp at h1
    · rcases ih h1 with ⟨h2, h3⟩
      exact ⟨Nat.lt_succ_of_lt h2, h3⟩

theorem remUpto_sorted (slots : List (Option SlotMaterial)) (c : Nat) :
    (remUpto slots c).Sorted (· > ·) := by
  induction c with
  | zero => simp [remUpto]
  | succ c ih =>
    rw [remUpto]
    split
    · refine List.sorted_cons.mpr ⟨?_, ih⟩
      intro b hb
      exact (remUpto_mem hb).1
    · simpa using ih


/-- What the walk's dict holds after the indices at least c are processed:
key k maps to its greatest slot index when that index is at least c. -/
def lastGE (slots : List (Option SlotMaterial)) (c : Nat)
    (k : SlotMaterial × Option Nat) : Option Nat :=
  (gLast slots k).bind fun j => if c ≤ j then some j else none

theorem alookup_append {α β : Type} [DecidableEq α] (l₁ l₂ : List (α × β)) (a : α) :
    alookup (l₁ ++ l₂) a =
      match alookup l₁ a with
      | some v => some v
      | none => alookup l₂ a := by
  induction l₁ with
  | nil => simp [alookup]
  | cons kv rest ih =>
    obtain ⟨k, v⟩ := kv
    by_cases h : k = a <;> simp [alookup, h, ih]

theorem map_ext {α β : Type} (f g : α → β) (l : List α) (h : ∀ a, f a = g a) :
    l.map f = l.map g := by
  induction l with
  | nil => rfl
  | cons a l ih => simp only [List.map_cons, h a, ih]

theorem lastGE_succ_eq {slots : List (Option SlotMaterial)} {c : Nat}
    {k : SlotMaterial × Option Nat} (h : gLast slots k ≠ some c) :
    lastGE slots (c + 1) k = lastGE slots c k := by
  unfold lastGE
  cases hg : gLast slots k with
  | none => rfl
  | some j =>
    have hne : j ≠ c := fun hh => h (by rw [hg, hh])
    show (if c + 1 ≤ j then some j else none) = (if c ≤ j then some j else none)
    by_cases h1 : c ≤ j
    · rw [if_pos h1, if_pos (by omega)]
    · rw [if_neg h1, if_neg (by omega)]

theorem rwFrom_ofKey {slots : List (Option SlotMaterial)} {c p : Nat}
    {k : SlotMaterial × Option Nat} (hp : keyAt slots p = some k) (hcp : c ≤ p) :
    ∃ j, gLast slots k = some j ∧ p ≤ j ∧ rwFrom slots c p = j := by
  rcases gLast_ofKey hp with ⟨j, hj1, hj2, _⟩
  refine ⟨j, hj1, hj2, ?_⟩
  rw [rwFrom, if_pos hcp, hp]
  show (gLast slots k).getD p = j
  rw [hj1]
  rfl

theorem rwFrom_id_step {slots : List (Option SlotMaterial)} {c : Nat}
    (h : ∀ k, keyAt slots c = some k → gLast slots k = some c) (p : Nat) :
    rwFrom slots (c + 1) p = rwFrom slots c p := by
  rcases Nat.lt_trichotomy p c with hpc | hpc | hpc
  · simp [rwFrom, Nat.not_le.mpr hpc, Nat.not_le.mpr (Nat.lt_succ_of_lt hpc)]
  · subst hpc
    rw [rwFrom, if_neg (by omega), rwFrom, if_pos (Nat.le_refl p)]
    cases hk : keyAt slots p with
    | none => rfl
    | some k =>
      show p = (gLast slots k).getD p
      rw [h k hk]
      rfl
  · simp only [rwFrom, if_pos (Nat.le_of_lt hpc), if_pos (Nat.succ_le_of_lt hpc)]

theorem rwFrom_dup_step {slots : List (Option SlotMaterial)} {c j : Nat}
    {k : SlotMaterial × Option Nat} (hkey : keyAt slots c = some k)
    (hj : gLast slots k = some j) (hjc : c < j) (p : Nat) :
    (if rwFrom slots (c + 1) p = c then j else rwFrom slots (c + 1) p) =
      rwFrom slots c p := by
  rcases Nat.lt_trichotomy p c with hpc | hpc | hpc
  · have h1 : rwFrom slots (c + 1) p = p := by
      simp [rwFrom, Nat.not_le.mpr (Nat.lt_succ_of_lt hpc)]
    have h2 : rwFrom slots c p = p := by simp [rwFrom, Nat.not_le.mpr hpc]
    rw [h1, h2, if_neg (by omega)]
  · subst hpc
    have h1 : rwFrom slots (p + 1) p = p := by simp [rwFrom]
    rw [h1, if_pos rfl, rwFrom, if_pos (Nat.le_refl p), hkey]
    show j = (gLast slots k).getD p
    rw [hj]
    rfl
  · have heq : rwFrom slots (c + 1) p = rwFrom slots c p := by
      simp only [rwFrom, if_pos (Nat.le_of_lt hpc), if_pos (Nat.succ_le_of_lt hpc)]
    rw [heq, if_neg ?_]
    cases hk : keyAt slots p with
    | none =>
      have : rwFrom slots c p = p := by
        rw [rwFrom, if_pos (Nat.le_of_lt hpc), hk]
      omega
    | some k' =>
      rcases rwFrom_ofKey hk (Nat.le_of_lt hpc) with ⟨j', _, hj2, hj3⟩
      rw [hj3]; omega

theorem slotWalk_out {slots : List (Option SlotMaterial)} {c : Nat}
    {map : List ((SlotMaterial × Option Nat) × Nat)} {polys rem : List Nat}
    (h : slots.get? c = none) :
    slotWalk slots (c + 1) map polys rem = slotWalk slots c map polys rem := by
  rw [slotWalk, h]

theorem slotWalk_null {slots : List (Option SlotMaterial)} {c : Nat}
    {map : List ((SlotMaterial × Option Nat) × Nat)} {polys rem : List Nat}
    (h : slots.get? c = some none) :
    slotWalk slots (c + 1) map polys rem =
      slotWalk slots c map polys (rem ++ [c]) := by
  rw [slotWalk, h]

theorem slotWalk_fresh {slots : List (Option SlotMaterial)} {c : Nat}
    {map : List ((SlotMaterial × Option Nat) × Nat)} {polys rem : List Nat}
    {m : SlotMaterial} (h : slots.get? c = some (some m))
    (h2 : alookup map (matKey m) = none) :
    slotWalk slots (c + 1) map polys rem =
      slotWalk slots c (map ++ [(matKey m, c)]) polys rem := by
  rw [slotWalk, h]
  show (match alookup map (matKey m) with
    | none => slotWalk slots c (map ++ [(matKey m, c)]) polys rem
    | some j =>
        slotWalk slots c map
          (polys.map fun p => if p = c then j else p) (rem ++ [c])) = _
  rw [h2]

theorem slotWalk_dup {slots : List (Option SlotMaterial)} {c j : Nat}
    {map : List ((SlotMaterial × Option Nat) × Nat)} {polys rem : List Nat}
    {m : SlotMaterial} (h : slots.get? c = some (some m))
    (h2 : alookup map (matKey m) = some j) :
    slotWalk slots (c + 1) map polys rem =
      slotWalk slots c map
        (polys.map fun p => if p = c then j else p) (rem ++ [c]) := by
  rw [slotWalk, h]
  show (match alookup map (matKey m) with
    | none => slotWalk slots c (map ++ [(matKey m, c)]) polys rem
    | some j =>
        slotWalk slots c map
          (polys.map fun p => if p = c then j else p) (rem ++ [c])) = _
  rw [h2]

theorem slotWalk_char (slots : List (Option SlotMaterial)) (polys₀ : List Nat) :
    ∀ (c : Nat) (map : List ((SlotMaterial × Option Nat) × Nat)) (rem : List Nat),
    c ≤ slots.length →
    (∀ k, alookup map k = lastGE slots c k) →
    slotWalk slots c map (polys₀.map (rwFrom slots c)) rem =
      (polys₀.map (rwFrom slots 0), rem ++ remUpto slots c) := by
  intro c
  induction c with
  | zero =>
    intro map rem _ _
    rw [slotWalk, remUpto]
    simp
  | succ c ih =>
    intro map rem hc hmap
    have hclt : c < slots.length := hc
    obtain ⟨v, hs⟩ : ∃ v, slots.get? c = some v :=
      ⟨slots.get ⟨c, hclt⟩, List.get?_eq_get hclt⟩
    cases v with
    | none =>
      have hkeyc : keyAt slots c = none := by rw [keyAt, hs]
      have hrem : removableB slots c = true := by rw [removableB, hs]
      have hmap' : ∀ k, alookup map k = lastGE slots c k := by
        intro k
        rw [hmap k, lastGE_succ_eq]
        intro hg
        have := (lastUpto_isLt hg).2
        rw [hkeyc] at this
        exact Option.noConfusion this
      have hpoly : polys₀.map (rwFrom slots (c + 1)) = polys₀.map (rwFrom slots c) :=
        map_ext _ _ _ (rwFrom_id_step fun k hk => absurd hk (by rw [hkeyc]; simp))
      rw [slotWalk_null hs, hpoly, ih map (rem ++ [c]) (Nat.le_of_lt hclt) hmap']
      rw [remUpto, if_pos hrem, List.append_assoc]
    | some m =>
      have hkeyc : keyAt slots c = some (matKey m) := by rw [keyAt, hs]
      rcases gLast_ofKey hkeyc with ⟨j, hj1, hj2, _⟩
      rcases Nat.lt_or_ge c j with hcj | hcj
      · -- duplicate: the key's greatest index lies strictly above c
        have hdup : alookup map (matKey m) = some j := by
          rw [hmap (matKey m)]
          unfold lastGE
          rw [hj1]
          show (if c + 1 ≤ j then some j else none) = some j
          rw [if_pos (Nat.succ_le_of_lt hcj)]
        have hrem : removableB slots c = true := by
          rw [removableB, hs]
          simp only [decide_eq_true_eq]
          rw [hj1]
          intro h
          cases h
          omega
        have hpoly :
            (polys₀.map (rwFrom slots (c + 1))).map (fun p => if p = c then j else p) =
              polys₀.map (rwFrom slots c) := by
          rw [List.map_map]
          exact map_ext _ _ _ (rwFrom_dup_step hkeyc hj1 hcj)
        have hmap' : ∀ k, alookup map k = lastGE slots c k := by
          intro k
          rw [hmap k, lastGE_succ_eq]
          intro hg
          have hk' := (lastUpto_isLt hg).2
          rw [hkeyc] at hk'
          cases hk'
          rw [hj1] at hg
          cases hg
          omega
        rw [slotWalk_dup hs hdup, hpoly, ih map (rem ++ [c]) (Nat.le_of_lt hclt) hmap']
        rw [remUpto, if_pos hrem, List.append_assoc]
      · -- fresh: c is itself the greatest index of its key
        have hjc' : j = c := by omega
        subst hjc'
        have hfresh : alookup map (matKey m) = none := by
          rw [hmap (matKey m)]
          unfold lastGE
          rw [hj1]
          show (if j + 1 ≤ j then some j else none) = none
          rw [if_neg (by omega)]
        have hrem : removableB slots j = false := by
          rw [removableB, hs]
          simp [hj1]
        have hpoly : polys₀.map (rwFrom slots (j + 1)) = polys₀.map (rwFrom slots j) := by
          refine map_ext _ _ _ (rwFrom_id_step fun k hk => ?_)
          rw [hkeyc] at hk
          cases hk
          exact hj1
        have hmap' : ∀ k, alookup (map ++ [(matKey m, j)]) k = lastGE slots j k := by
          intro k
          rw [alookup_append]
          cases hv : alookup map k with
          | some v =>
            show some v = lastGE slots j k
            rw [hmap k] at hv
            unfold lastGE at hv ⊢
            cases hg : gLast slots k with
            | none => rw [hg] at hv; exact Option.noConfusion hv
            | some j' =>
              rw [hg] at hv
              have hv' : (if j + 1 ≤ j' then some j' else none) = some v := hv
              have hle : j + 1 ≤ j' := by
                by_contra hle
                rw [if_neg hle] at hv'
                exact Option.noConfusion hv'
              show _ = (if j ≤ j' then some j' else none)
              rw [if_pos (by omega)]
              rw [if_pos hle] at hv'
              exact hv'.symm
          | none =>
            show alookup [(matKey m, j)] k = lastGE slots j k
            rw [hmap k] at hv
            unfold lastGE at hv ⊢
            by_cases hkm : matKey m = k
            · subst hkm
              rw [hj1]
              show alookup [(matKey m, j)] (matKey m) = if j ≤ j then some j else none
              rw [if_pos (Nat.le_refl j)]
              simp [alookup]
            · cases hg : gLast slots k with
              | none => simp [alookup, hkm]
              | some j' =>
                rw [hg] at hv
                have hv' : (if j + 1 ≤ j' then some j' else none) = none := hv
                have hle : ¬ (j + 1 ≤ j') := by
                  by_contra hle
                  rw [if_pos hle] at hv'
                  exact Option.noConfusion hv'
                have hne : j' ≠ j := by
                  intro hjj
                  subst hjj
                  have hk' := (lastUpto_isLt hg).2
                  rw [hkeyc] at hk'
                  cases hk'
                  exact hkm rfl
                show alookup [(matKey m, j)] k = if j ≤ j' then some j' else none
                rw [if_neg (by omega)]
                simp [alookup, hkm]
        rw [slotWalk_fresh hs hfresh, hpoly,
          ih (map ++ [(matKey m, j)]) rem (Nat.le_of_lt hclt) hmap']
        rw [remUpto, if_neg (by simp [hrem])]
        rfl

theorem get?_eraseIdx_lt {α : Type} :
    ∀ (l : List α) (i j : Nat), j < i → (l.eraseIdx i).get? j = l.get? j := by
  intro l
  induction l with
  | nil => intro i j _; rfl
  | cons a l ih =>
    intro i j hj
    match i, j with
    | i + 1, 0 => rfl
    | i + 1, j + 1 =>
      show (l.eraseIdx i).get? j = l.get? j
      exact ih i j (by omega)

theorem get?_eraseIdx_ge {α : Type} :
    ∀ (l : List α) (i j : Nat), i ≤ j → (l.eraseIdx i).get? j = l.get? (j + 1) := by
  intro l
  induction l with
  | nil => intro i j _; rfl
  | cons a l ih =>
    intro i j hj
    match i, j with
    | 0, j => rfl
    | i + 1, j + 1 =>
      show (l.eraseIdx i).get? j = l.get? (j + 1)
      exact ih i j (by omega)

theorem popList_polys : ∀ (rs : List Nat) (o : SlotObj),
    (rs.foldl popSlot o).polys =
      o.polys.map fun p =>
        rs.foldl (fun q r => if q ≠ 0 ∧ r ≤ q then q - 1 else q) p := by
  intro rs
  induction rs with
  | nil => intro o; exact (List.map_id _).symm
  | cons r rs ih =>
    intro o
    show (rs.foldl popSlot (popSlot o r)).polys = _
    rw [ih (popSlot o r)]
    show (o.polys.map _).map _ = _
    rw [List.map_map]
    rfl

theorem popList_materials : ∀ (rs : List Nat) (o : SlotObj),
    (rs.foldl popSlot o).materials = rs.foldl List.eraseIdx o.materials := by
  intro rs
  induction rs with
  | nil => intro o; rfl
  | cons r rs ih =>
    intro o
    show (rs.foldl popSlot (popSlot o r)).materials = _
    rw [ih (popSlot o r)]
    rfl

theorem eraseList_track :
    ∀ (rs : List Nat) (slots : List (Option SlotMaterial)) (v : Nat),
    rs.Sorted (· > ·) → (∀ r ∈ rs, r < slots.length) → v ∉ rs → v < slots.length →
    (rs.foldl List.eraseIdx slots).get?
        (rs.foldl (fun q r => if q ≠ 0 ∧ r ≤ q then q - 1 else q) v) =
      slots.get? v := by
  intro rs
  induction rs with
  | nil => intro slots v _ _ _ _; rfl
  | cons r rs ih =>
    intro slots v hsort hlen hv hvlt
    have hsort' := (List.sorted_cons.mp hsort).2
    have hrgt := (List.sorted_cons.mp hsort).1
    have hrlt : r < slots.length := hlen r (List.mem_cons_self r rs)
    have hvr : v ≠ r := fun h => hv (h ▸ List.mem_cons_self r rs)
    have hlen' : ∀ x ∈ rs, x < (slots.eraseIdx r).length := by
      intro x hx
      rw [List.length_eraseIdx, if_pos hrlt]
      have := hrgt x hx
      omega
    rcases Nat.lt_or_ge v r with hlt | hge
    · have hstep : (if v ≠ 0 ∧ r ≤ v then v - 1 else v) = v := by
        rw [if_neg]; intro hh; omega
      show (rs.foldl List.eraseIdx (slots.eraseIdx r)).get?
          (rs.foldl _ (if v ≠ 0 ∧ r ≤ v then v - 1 else v)) = _
      rw [hstep]
      rw [ih (slots.eraseIdx r) v hsort' hlen'
        (fun h => hv (List.mem_cons_of_mem r h))
        (by rw [List.length_eraseIdx, if_pos hrlt]; omega)]
      exact get?_eraseIdx_lt slots r v hlt
    · have hgt : r < v := by omega
      have hstep : (if v ≠ 0 ∧ r ≤ v then v - 1 else v) = v - 1 := by
        rw [if_pos ⟨by omega, by omega⟩]
      show (rs.foldl List.eraseIdx (slots.eraseIdx r)).get?
          (rs.foldl _ (if v ≠ 0 ∧ r ≤ v then v - 1 else v)) = _
      rw [hstep]
      rw [ih (slots.eraseIdx r) (v - 1) hsort' hlen'
        (fun h => by have := hrgt _ h; omega)
        (by rw [List.length_eraseIdx, if_pos hrlt]; omega)]
      rw [get?_eraseIdx_ge slots r (v - 1) (by omega)]
      congr 1
      omega

theorem sortRev_of_sortedDesc (l : List Nat) (h : l.Sorted (· > ·)) :
    (l.insertionSort (· ≤ ·)).reverse = l := by
  have h1 : (l.insertionSort (· ≤ ·)).Perm l.reverse :=
    (List.perm_insertionSort _ _).trans (List.reverse_perm l).symm
  have h2 : (l.insertionSort (· ≤ ·)).Sorted (· ≤ ·) :=
    List.sorted_insertionSort _ _
  have h3 : l.reverse.Sorted (· ≤ ·) := by
    rw [List.Sorted, List.pairwise_reverse]
    exact h.imp fun hab => Nat.le_of_lt hab
  have := List.eq_of_perm_of_sorted h1 h2 h3
  rw [this, List.reverse_reverse]

theorem rwFrom_len (slots : List (Option SlotMaterial)) (p : Nat) :
    rwFrom slots slots.length p = p := by
  by_cases h : slots.length ≤ p
  · rw [rwFrom, if_pos h]
    have hk : keyAt slots p = none := by
      rw [keyAt, List.get?_eq_none.mpr h]
    rw [hk]
  · rw [rwFrom, if_neg h]

theorem lastGE_len (slots : List (Option SlotMaterial))
    (k : SlotMaterial × Option Nat) : lastGE slots slots.length k = none := by
  unfold lastGE
  cases hg : gLast slots k with
  | none => rfl
  | some j =>
    have := (lastUpto_isLt hg).1
    show (if slots.length ≤ j then some j else none) = none
    rw [if_neg (by omega)]

theorem slotWalk_eq (o : SlotObj) :
    slotWalk o.materials o.materials.length [] o.polys [] =
      (o.polys.map (rwFrom o.materials 0),
        remUpto o.materials o.materials.length) := by
  have h0 : o.polys = o.polys.map (rwFrom o.materials o.materials.length) := by
    rw [map_ext (rwFrom o.materials o.materials.length) id _
      (rwFrom_len o.materials), List.map_id]
  calc slotWalk o.materials o.materials.length [] o.polys []
      = slotWalk o.materials o.materials.length []
          (o.polys.map (rwFrom o.materials o.materials.length)) [] := by rw [← h0]
    _ = (o.polys.map (rwFrom o.materials 0),
          [] ++ remUpto o.materials o.materials.length) :=
        slotWalk_char o.materials o.polys o.materials.length [] []
          (Nat.le_refl _) (fun k => (lastGE_len o.materials k).symm)
    _ = (o.polys.map (rwFrom o.materials 0),
          remUpto o.materials o.materials.length) := by rw [List.nil_append]

/-- Full characterisation of the slot pass: phase 1 rewrites every polygon
through rwFrom, then the queued indices are popped in descending order. -/
theorem slotCompact_char (o : SlotObj) :
    remove_duplicate_material_slots o =
      (remUpto o.materials o.materials.length).foldl popSlot
        { materials := o.materials,
          polys := o.polys.map (rwFrom o.materials 0) } := by
  unfold remove_duplicate_material_slots
  rw [slotWalk_eq]
  rw [sortRev_of_sortedDesc _ (remUpto_sorted o.materials o.materials.length)]

/-- C1 (amended): when every polygon of the object sits on a slot that
carries a material, the pass moves each polygon to an in-bounds index that
resolves to the very material its original slot carried. -/
theorem slot_compaction_preserves_assignment (o : SlotObj)
    (h : ∀ p ∈ o.polys, ∃ m, o.materials.get? p = some (some m)) :
    ∀ t p, o.polys.get? t = some p →
      ∃ q, (remove_duplicate_material_slots o).polys.get? t = some q ∧
        q < (remove_duplicate_material_slots o).materials.length ∧
        (remove_duplicate_material_slots o).materials.get? q =
          o.materials.get? p := by
  intro t p hget
  obtain ⟨m, hm⟩ := h p (List.get?_mem hget)
  have hkey : keyAt o.materials p = some (matKey m) := by rw [keyAt, hm]
  rcases rwFrom_ofKey hkey (Nat.zero_le p) with ⟨j, hj1, hj2, hj3⟩
  rcases gLast_ofKey hkey with ⟨j', hj1', _, hkeyj⟩
  rw [hj1] at hj1'
  cases hj1'
  obtain ⟨m', hm'⟩ : ∃ m', o.materials.get? j = some (some m') := by
    rw [keyAt] at hkeyj
    cases hg : o.materials.get? j with
    | none => rw [hg] at hkeyj; exact Option.noConfusion hkeyj
    | some s =>
      cases s with
      | none => rw [hg] at hkeyj; exact Option.noConfusion hkeyj
      | some m' => exact ⟨m', rfl⟩
  have hmm : m' = m := by
    rw [keyAt, hm'] at hkeyj
    have : matKey m' = matKey m := Option.some.inj hkeyj
    exact congrArg Prod.fst this
  subst hmm
  have hjn : j < o.materials.length := keyAt_lt hkeyj
  have hnotin : j ∉ remUpto o.materials o.materials.length := by
    intro hmem
    have hrb := (remUpto_mem hmem).2
    rw [removableB, hm'] at hrb
    simp only [decide_eq_true_eq] at hrb
    exact hrb hj1
  have htrack := eraseList_track (remUpto o.materials o.materials.length)
    o.materials j (remUpto_sorted _ _)
    (fun r hr => (remUpto_mem hr).1) hnotin hjn
  rw [slotCompact_char o]
  rw [popList_polys, popList_materials]
  refine ⟨(remUpto o.materials o.materials.length).foldl
    (fun q r => if q ≠ 0 ∧ r ≤ q then q - 1 else q) j, ?_, ?_, ?_⟩
  · show (List.map _ (o.polys.map (rwFrom o.materials 0))).get? t = _
    rw [List.map_map, List.get?_map, hget]
    show some _ = some _
    rw [Function.comp_apply, hj3]
  · by_contra hge
    rw [Nat.not_lt] at hge
    rw [List.get?_eq_none.mpr hge] at htrack
    rw [hm'] at htrack
    exact Option.noConfusion htrack
  · rw [htrack, hm', hm]

/-! ### Idempotence of the slot pass -/

/-- The slots that survive the walk over indices below c, in order. -/
def keptUpto (slots : List (Option SlotMaterial)) : Nat → List (Option SlotMaterial)
  | 0 => []
  | c + 1 =>
    keptUpto slots c ++
      (if removableB slots c then [] else (slots.get? c).toList)

theorem drop_eraseIdx {α : Type} :
    ∀ (l : List α) (c : Nat), (l.eraseIdx c).drop c = l.drop (c + 1) := by
  intro l
  induction l with
  | nil => intro c; simp
  | cons a l ih =>
    intro c
    match c with
    | 0 => rfl
    | c + 1 =>
      show (l.eraseIdx c).drop c = l.drop (c + 1)
      exact ih c

theorem eraseFold_kept (slots : List (Option SlotMaterial)) :
    ∀ (c : Nat) (L : List (Option SlotMaterial)),
    c ≤ slots.length → (∀ i, i < c → L.get? i = slots.get? i) →
    (remUpto slots c).foldl List.eraseIdx L = keptUpto slots c ++ L.drop c := by
  intro c
  induction c with
  | zero => intro L _ _; rfl
  | succ c ih =>
    intro L hc hagree
    have hclt : c < slots.length := hc
    obtain ⟨s, hs⟩ : ∃ s, slots.get? c = some s :=
      ⟨slots.get ⟨c, hclt⟩, List.get?_eq_get hclt⟩
    have hLs : L.get? c = some s := by rw [hagree c (Nat.lt_succ_self c), hs]
    have hcL : c < L.length := by
      by_contra hge
      rw [List.get?_eq_none.mpr (by omega)] at hLs
      exact Option.noConfusion hLs
    rw [remUpto, List.foldl_append]
    by_cases hr : removableB slots c = true
    · rw [if_pos hr]
      show (remUpto slots c).foldl List.eraseIdx (L.eraseIdx c) = _
      rw [ih (L.eraseIdx c) (Nat.le_of_lt hclt)
        (fun i hi => by rw [get?_eraseIdx_lt L c i hi, hagree i (by omega)])]
      rw [drop_eraseIdx]
      have hk : keptUpto slots (c + 1) = keptUpto slots c := by
        rw [keptUpto, if_pos hr, List.append_nil]
      rw [hk]
    · rw [if_neg hr]
      show (remUpto slots c).foldl List.eraseIdx L = _
      rw [ih L (Nat.le_of_lt hclt) (fun i hi => hagree i (by omega))]
      have hk : keptUpto slots (c + 1) = keptUpto slots c ++ [s] := by
        rw [keptUpto, if_neg hr, hs]
        rfl
      have hdrop : L.drop c = s :: L.drop (c + 1) := by
        have h1 := List.drop_eq_get_cons hcL
        rw [h1]
        congr 1
        have h2 := List.get?_eq_get hcL
        rw [h2] at hLs
        exact Option.some.inj hLs
      rw [hk, hdrop, List.append_assoc]
      rfl

theorem keptUpto_get (slots : List (Option SlotMaterial)) :
    ∀ (c : Nat) (i : Nat) (s : Option SlotMaterial),
    (keptUpto slots c).get? i = some s →
    ∃ v, v < c ∧ slots.get? v = some s ∧ removableB slots v = false ∧
      (keptUpto slots v).length = i := by
  intro c
  induction c with
  | zero => intro i s h; simp [keptUpto] at h
  | succ c ih =>
    intro i s h
    rw [keptUpto] at h
    rcases Nat.lt_or_ge i (keptUpto slots c).length with hi | hi
    · rw [List.get?_append hi] at h
      rcases ih i s h with ⟨v, hv1, hv2, hv3, hv4⟩
      exact ⟨v, by omega, hv2, hv3, hv4⟩
    · rw [List.get?_append_right hi] at h
      by_cases hr : removableB slots c = true
      · rw [if_pos hr] at h
        simp at h
      · rw [if_neg hr] at h
        cases hs : slots.get? c with
        | none => rw [hs] at h; simp at h
        | some s' =>
          rw [hs] at h
          have hi0 : i = (keptUpto slots c).length := by
            by_contra hne
            have h1 : (1:Nat) ≤ i - (keptUpto slots c).length := by omega
            rw [List.get?_eq_none.mpr (by simpa using h1)] at h
            exact Option.noConfusion h
          rw [hi0, Nat.sub_self] at h
          have hss : s' = s := Option.some.inj h
          subst hss
          exact ⟨c, Nat.lt_succ_self c, hs, by simpa using hr, hi0.symm⟩

theorem matKey_inj {m₁ m₂ : SlotMaterial} (h : matKey m₁ = matKey m₂) : m₁ = m₂ :=
  congrArg Prod.fst h

theorem lastUpto_unique {L : List (Option SlotMaterial)} {i : Nat}
    {k : SlotMaterial × Option Nat} (hi : keyAt L i = some k)
    (huniq : ∀ j, keyAt L j = some k → j = i) :
    ∀ c, i < c → lastUpto L c k = some i := by
  intro c
  induction c with
  | zero => omega
  | succ c ih =>
    intro hic
    rw [lastUpto]
    by_cases hk : keyAt L c = some k
    · rw [if_pos hk, huniq c hk]
    · rw [if_neg hk]
      have hne : i ≠ c := fun h => hk (h ▸ hi)
      exact ih (by omega)

/-- A slot list on which the walk has nothing to do: every entry carries a
material and is the greatest index of its key. -/
def CleanSlots (L : List (Option SlotMaterial)) : Prop :=
  ∀ i s, L.get? i = some s → ∃ m, s = some m ∧ gLast L (matKey m) = some i

theorem clean_removable {L : List (Option SlotMaterial)} (h : CleanSlots L)
    (i : Nat) : removableB L i = false := by
  cases hg : L.get? i with
  | none => rw [removableB, hg]
  | some s =>
    rcases h i s hg with ⟨m, hm, hgl⟩
    subst hm
    rw [removableB, hg]
    simp [hgl]

theorem clean_remUpto {L : List (Option SlotMaterial)} (h : CleanSlots L) :
    ∀ c, remUpto L c = [] := by
  intro c
  induction c with
  | zero => rfl
  | succ c ih =>
    rw [remUpto, ih, clean_removable h c]
    simp

theorem clean_rwFrom {L : List (Option SlotMaterial)} (h : CleanSlots L)
    (p : Nat) : rwFrom L 0 p = p := by
  rw [rwFrom, if_pos (Nat.zero_le p)]
  cases hg : L.get? p with
  | none =>
    have hk : keyAt L p = none := by rw [keyAt, hg]
    rw [hk]
  | some s =>
    rcases h p s hg with ⟨m, hm, hgl⟩
    subst hm
    have hk : keyAt L p = some (matKey m) := by rw [keyAt, hg]
    rw [hk]
    show (gLast L (matKey m)).getD p = p
    rw [hgl]
    rfl

theorem clean_pass_id (o : SlotObj) (h : CleanSlots o.materials) :
    remove_duplicate_material_slots o = o := by
  rw [slotCompact_char, clean_remUpto h]
  show SlotObj.mk o.materials (o.polys.map (rwFrom o.materials 0)) = o
  rw [map_ext _ id _ (clean_rwFrom h), List.map_id]

theorem pass_materials_eq (o : SlotObj) :
    (remove_duplicate_material_slots o).materials =
      keptUpto o.materials o.materials.length := by
  rw [slotCompact_char, popList_materials]
  show (remUpto o.materials o.materials.length).foldl List.eraseIdx o.materials = _
  rw [eraseFold_kept o.materials o.materials.length o.materials (Nat.le_refl _)
    (fun _ _ => rfl)]
  rw [List.drop_length, List.append_nil]

theorem pass_clean (o : SlotObj) :
    CleanSlots (remove_duplicate_material_slots o).materials := by
  rw [pass_materials_eq]
  intro i s hget
  rcases keptUpto_get o.materials o.materials.length i s hget with
    ⟨v, hv1, hv2, hv3, hv4⟩
  obtain ⟨m, hm⟩ : ∃ m, s = some m := by
    cases s with
    | none => rw [removableB, hv2] at hv3; exact Bool.noConfusion hv3
    | some m => exact ⟨m, rfl⟩
  subst hm
  have hgl : gLast o.materials (matKey m) = some v := by
    rw [removableB, hv2] at hv3
    simpa using hv3
  refine ⟨m, rfl, ?_⟩
  have hkeyi : keyAt (keptUpto o.materials o.materials.length) i = some (matKey m) := by
    rw [keyAt, hget]
  have hilt : i < (keptUpto o.materials o.materials.length).length := by
    by_contra hge
    rw [List.get?_eq_none.mpr (by omega)] at hget
    exact Option.noConfusion hget
  refine lastUpto_unique hkeyi ?_ _ hilt
  intro j hj
  obtain ⟨sj, hsj⟩ : ∃ sj, (keptUpto o.materials o.materials.length).get? j = some sj := by
    rw [keyAt] at hj
    cases hg : (keptUpto o.materials o.materials.length).get? j with
    | none => rw [hg] at hj; exact Option.noConfusion hj
    | some sj => exact ⟨sj, rfl⟩
  rcases keptUpto_get o.materials o.materials.length j sj hsj with
    ⟨vj, hvj1, hvj2, hvj3, hvj4⟩
  obtain ⟨mj, hmj⟩ : ∃ mj, sj = some mj := by
    cases sj with
    | none => rw [removableB, hvj2] at hvj3; exact Bool.noConfusion hvj3
    | some mj => exact ⟨mj, rfl⟩
  subst hmj
  have hkeymj : matKey mj = matKey m := by
    rw [keyAt, hsj] at hj
    exact Option.some.inj hj
  have hglj : gLast o.materials (matKey mj) = some vj := by
    rw [removableB, hvj2] at hvj3
    simpa using hvj3
  rw [hkeymj, hgl] at hglj
  have hvv : vj = v := by
    have := Option.some.inj hglj
    omega
  subst hvv
  omega

/-- Running the slot pass a second time changes nothing. -/
theorem slot_pass_idempotent (o : SlotObj) :
    remove_duplicate_material_slots (remove_duplicate_material_slots o) =
      remove_duplicate_material_slots o :=
  clean_pass_id _ (pass_clean o)

/-! ### Concrete slot-pass scenarios -/

/-- Material A of the spec scenario (a plain material with no node tree). -/
def slotMatA : SlotMaterial := { id := 1, useNodes := false, nodes := [] }

/-- Material B of the spec scenario. -/
def slotMatB : SlotMaterial := { id := 2, useNodes := false, nodes := [] }

/-- The spec scenario object: slots [A, null, A, B], polygons [0,1,2,3]. -/
def slotExScenario : SlotObj :=
  { materials := [some slotMatA, none, some slotMatA, some slotMatB],
    polys := [0, 1, 2, 3] }

/-- An object whose single slot is empty while a polygon references it. -/
def slotExNull : SlotObj := { materials := [none], polys := [0] }

/-- An object with one material duplicated over both slots. -/
def slotExDup : SlotObj :=
  { materials := [some slotMatA, some slotMatA], polys := [0, 1] }

/-- C1 counterexample: on an object whose only slot is empty and carries a
polygon, the pass removes the slot but the polygon keeps index 0, which is
not within bounds of the now empty slot list, refuting the claim for every
object and every polygon. -/
theorem slot_index_validity_counterexample :
    ¬ (∀ t q, (remove_duplicate_material_slots slotExNull).polys.get? t = some q →
        q < (remove_duplicate_material_slots slotExNull).materials.length) :=
  fun h => absurd (h 0 0 (by decide)) (by decide)

/-- C2 counterexample: on slots [A, null, A, B] with polygons [0,1,2,3],
phase 1 rewrites the polygon of duplicate slot 0 to index 2 — the higher
first-seen index, not an index strictly below the current one — and the
final polygon list is [0,0,0,1]: the polygon that referenced the removed
null slot ends at index 0, not untouched at index 1. -/
theorem slot_rewrite_direction_counterexample :
    (slotWalk slotExScenario.materials 4 [] slotExScenario.polys []).1.get? 0 =
        some 2 ∧
      ¬ (2 < 0) ∧
      (remove_duplicate_material_slots slotExScenario).polys.get? 1 = some 0 ∧
      ¬ ((0 : Nat) = 1) := by
  decide

/-- C2 (amended): the walk runs backward, so a duplicate slot's polygons
are rewritten to the greatest index of the key; on [A, null, A, B] with
polygons [0,1,2,3] phase 1 yields polygons [2,1,2,3], and after the
descending removals with the host's index fix-up the result is slots
[A, B] with polygons [0,0,0,1]. -/
theorem slot_rewrite_direction_amended :
    (slotWalk slotExScenario.materials 4 [] slotExScenario.polys []).1 =
        [2, 1, 2, 3] ∧
      remove_duplicate_material_slots slotExScenario =
        { materials := [some slotMatA, some slotMatB], polys := [0, 0, 0, 1] } := by
  decide

/-- Witness for the amended C1 theorem at a concrete object. -/
theorem slot_compaction_preserves_assignment_witness :
    ∃ q, (remove_duplicate_material_slots slotExDup).polys.get? 0 = some q ∧
      q < (remove_duplicate_material_slots slotExDup).materials.length ∧
      (remove_duplicate_material_slots slotExDup).materials.get? q =
        slotExDup.materials.get? 0 :=
  slot_compaction_preserves_assignment slotExDup
    (by
      intro p hp
      rcases List.mem_cons.mp hp with h | h
      · subst h; exact ⟨slotMatA, rfl⟩
      · rcases List.mem_cons.mp h with h' | h'
        · subst h'; exact ⟨slotMatA, rfl⟩
        · cases h')
    0 0 (by decide)

/-! ## Mesh deduplication: mesh_utils.remove_duplicate_meshes -/

/-- A mesh datablock: identity, unique name, the user count not coming
from scene objects (fake-user flag and other unrewritten references), and
the geometry arrays the hash reads (coordinates stand for the exact
stored float values). -/
structure Mesh where
  id : Nat
  name : String
  fakeUsers : Nat
  vertices : List (Int × Int × Int)
  edges : List (Nat × Nat)
  polygons : List (List Nat)
deriving DecidableEq

/-- A scene object as read by the mesh pass: identity and its mesh-data
reference. -/
structure MObj where
  id : Nat
  data : Nat
deriving DecidableEq

/-- The scene as read by the mesh pass. -/
structure MeshScene where
  meshes : List Mesh
  objects : List MObj
deriving DecidableEq

/-- The geometry hash of mesh_utils lines 148-152: the order-sensitive
triple of vertex coordinates, edge vertex pairs and polygon vertex
lists. -/
def geomHash (m : Mesh) :
    List (Int × Int × Int) × List (Nat × Nat) × List (List Nat) :=
  (m.vertices, m.edges, m.polygons)

/-- The hash type. -/
abbrev GeomHash := List (Int × Int × Int) × List (Nat × Nat) × List (List Nat)

/-- mesh.users: the number of objects whose data is this mesh, plus the
users not coming from objects. -/
def meshUsers (objs : List MObj) (m : Mesh) : Nat :=
  (objs.countP fun o => decide (o.data = m.id)) + m.fakeUsers

/-- State threaded through the first pass of remove_duplicate_meshes. -/
structure MeshPassState where
  map : List (GeomHash × Nat)
  objects : List MObj
  toDelete : List String

/-- One iteration of the first pass (lines 142-175): skip meshes with no
users; a mesh whose hash is known is a duplicate, every object using it
is repointed to the source mesh and, when its user count has dropped to
zero, its name is queued; a fresh hash records the mesh as source. -/
def meshStep (st : MeshPassState) (mesh : Mesh) : MeshPassState :=
  if meshUsers st.objects mesh = 0 then st
  else
    match alookup st.map (geomHash mesh) with
    | some srcId =>
      { map := st.map,
        objects := st.objects.map fun o =>
          if o.data = mesh.id then { o with data := srcId } else o,
        toDelete :=
          if meshUsers
              (st.objects.map fun o =>
                if o.data = mesh.id then { o with data := srcId } else o)
              mesh = 0 then
            st.toDelete ++ [mesh.name]
          else st.toDelete }
    | none => { st with map := st.map ++ [(geomHash mesh, mesh.id)] }

/-- The first pass over all meshes. -/
def meshPass1 (s : MeshScene) : MeshPassState :=
  s.meshes.foldl meshStep { map := [], objects := s.objects, toDelete := [] }

/-- One deletion of the second pass (lines 178-190): re-fetch the mesh by
its recorded name and remove it; a name that no longer resolves is
skipped. -/
def meshDeleteStep (sc : MeshScene) (nm : String) : MeshScene :=
  match sc.meshes.find? (fun m => decide (m.name = nm)) with
  | some _ => { sc with meshes := sc.meshes.eraseP (fun m => decide (m.name = nm)) }
  | none => sc

/-- mesh_utils.remove_duplicate_meshes (lines 128-195). -/
def remove_duplicate_meshes (s : MeshScene) : MeshScene :=
  (meshPass1 s).toDelete.foldl meshDeleteStep
    { meshes := s.meshes, objects := (meshPass1 s).objects }

/-- Well-formed scene: datablock identities and names are unique, as the
host guarantees. -/
def MeshSceneWF (s : MeshScene) : Prop :=
  (s.meshes.map (·.id)).Nodup ∧ (s.meshes.map (·.name)).Nodup

/-- C7: the mesh fingerprint is the order-sensitive triple of vertex
coordinates, edge pairs and polygon vertex lists, so two meshes get equal
fingerprints (and hence are grouped as duplicates) exactly when every
vertex coordinate, edge pair and polygon vertex list matches in storage
order — no tolerance, no reordering. -/
theorem mesh_fingerprint_exact (m₁ m₂ : Mesh) :
    geomHash m₁ = geomHash m₂ ↔
      m₁.vertices = m₂.vertices ∧ m₁.edges = m₂.edges ∧
        m₁.polygons = m₂.polygons := by
  unfold geomHash
  constructor
  · intro h
    refine ⟨congrArg (fun t => t.1) h, congrArg (fun t => t.2.1) h,
      congrArg (fun t => t.2.2) h⟩
  · rintro ⟨h1, h2, h3⟩
    rw [h1, h2, h3]

/-! ### Characterisation of the mesh first pass

Objects pointing at a not-yet-processed mesh are never touched (the walk
only repoints objects away from the mesh being processed), so the user
count the walk reads at a mesh's turn equals the count over the original
objects; the invariants below are stated against those original counts. -/

/-- The test a mesh must pass to be considered at its turn with hash h:
it has users and hashes to h. -/
def userHashB (s : MeshScene) (h : GeomHash) (m : Mesh) : Bool :=
  decide (0 < meshUsers s.objects m) && decide (geomHash m = h)

/-- The survivor the walk has recorded for hash h after processing the
prefix A: the first user-having mesh of A with that hash. -/
def firstSurvivor (s : MeshScene) (A : List Mesh) (h : GeomHash) : Option Mesh :=
  A.find? (userHashB s h)

/-- Where an object's data reference points after the prefix A has been
processed. -/
def objRedirect (s : MeshScene) (A : List Mesh) (d : Nat) : Nat :=
  match A.find? (fun m => decide (m.id = d)) with
  | some m =>
    if 0 < meshUsers s.objects m then
      match firstSurvivor s A (geomHash m) with
      | some msrc => msrc.id
      | none => d
    else d
  | none => d

/-- Whether the walk has queued mesh m for deletion after processing A: a
user-having duplicate whose users all came from objects. -/
def dupQueuedB (s : MeshScene) (A : List Mesh) (m : Mesh) : Bool :=
  decide (0 < meshUsers s.objects m) &&
    decide (firstSurvivor s A (geomHash m) ≠ some m) &&
    decide (m.fakeUsers = 0)

/-- The three invariants tying the pass state to the processed prefix. -/
def MeshInv (s : MeshScene) (A : List Mesh) (st : MeshPassState) : Prop :=
  (∀ h, alookup st.map h = (firstSurvivor s A h).map (fun m => m.id)) ∧
  st.objects = s.objects.map (fun o => MObj.mk o.id (objRedirect s A o.data)) ∧
  st.toDelete = (A.filter (dupQueuedB s A)).map (fun m => m.name)

theorem firstSurvivor_append {s : MeshScene} {A : List Mesh} (B : List Mesh)
    {h : GeomHash} {m : Mesh} (hf : firstSurvivor s A h = some m) :
    firstSurvivor s (A ++ B) h = some m := by
  rw [firstSurvivor, List.find?_append]
  rw [firstSurvivor] at hf
  rw [hf]
  rfl

theorem firstSurvivor_append_fail {s : MeshScene} {A : List Mesh} {μ : Mesh}
    {h : GeomHash} (hf : firstSurvivor s A h = none)
    (hμ : userHashB s h μ = false) :
    firstSurvivor s (A ++ [μ]) h = none := by
  rw [firstSurvivor, List.find?_append]
  rw [firstSurvivor] at hf
  rw [hf]
  show List.find? (userHashB s h) [μ] = none
  rw [List.find?]
  rw [hμ]
  rfl

theorem firstSurvivor_append_hit {s : MeshScene} {A : List Mesh} {μ : Mesh}
    {h : GeomHash} (hf : firstSurvivor s A h = none)
    (hμ : userHashB s h μ = true) :
    firstSurvivor s (A ++ [μ]) h = some μ := by
  rw [firstSurvivor, List.find?_append]
  rw [firstSurvivor] at hf
  rw [hf]
  show List.find? (userHashB s h) [μ] = some μ
  rw [List.find?]
  rw [hμ]

theorem firstSurvivor_mem {s : MeshScene} {A : List Mesh} {h : GeomHash}
    {m : Mesh} (hf : firstSurvivor s A h = some m) : m ∈ A :=
  List.mem_of_find?_eq_some hf

theorem firstSurvivor_props {s : MeshScene} {A : List Mesh} {h : GeomHash}
    {m : Mesh} (hf : firstSurvivor s A h = some m) :
    0 < meshUsers s.objects m ∧ geomHash m = h := by
  have := List.find?_some hf
  rw [userHashB] at this
  simp only [Bool.and_eq_true, decide_eq_true_eq] at this
  exact this

theorem firstSurvivor_self {s : MeshScene} {A : List Mesh} {m : Mesh}
    (hm : m ∈ A) (hu : 0 < meshUsers s.objects m) :
    ∃ m', firstSurvivor s A (geomHash m) = some m' := by
  have hsome : (A.find? (userHashB s (geomHash m))).isSome := by
    apply List.find?_isSome.mpr
    exact ⟨m, hm, by simp [userHashB, hu]⟩
  rcases Option.isSome_iff_exists.mp hsome with ⟨m', hm'⟩
  exact ⟨m', by rw [firstSurvivor]; exact hm'⟩

theorem objRedirect_eq_iff {s : MeshScene} {A : List Mesh} {μ : Mesh}
    (hnotin : ∀ m ∈ A, m.id ≠ μ.id) (d : Nat) :
    objRedirect s A d = μ.id ↔ d = μ.id := by
  constructor
  · intro h
    rw [objRedirect] at h
    cases hfind : A.find? (fun m => decide (m.id = d)) with
    | none => rw [hfind] at h; exact h
    | some m =>
      rw [hfind] at h
      have h' : (if 0 < meshUsers s.objects m then
          match firstSurvivor s A (geomHash m) with
          | some msrc => msrc.id
          | none => d
        else d) = μ.id := h
      by_cases hu : 0 < meshUsers s.objects m
      · rw [if_pos hu] at h'
        cases hfs : firstSurvivor s A (geomHash m) with
        | none => rw [hfs] at h'; exact h'
        | some msrc =>
          rw [hfs] at h'
          exact absurd h' (hnotin msrc (firstSurvivor_mem hfs))
      · rw [if_neg hu] at h'
        exact h'
  · intro h
    subst h
    rw [objRedirect]
    cases hfind : A.find? (fun m => decide (m.id = μ.id)) with
    | none => rfl
    | some m =>
      have hmid : m.id = μ.id := by
        have := List.find?_some hfind
        simpa using this
      exact absurd hmid (hnotin m (List.mem_of_find?_eq_some hfind))

theorem meshUsers_redirect {s : MeshScene} {A : List Mesh} {μ : Mesh}
    (hnotin : ∀ m ∈ A, m.id ≠ μ.id) :
    meshUsers (s.objects.map fun o => MObj.mk o.id (objRedirect s A o.data)) μ =
      meshUsers s.objects μ := by
  unfold meshUsers
  congr 1
  rw [List.countP_map]
  refine List.countP_congr ?_
  intro o _
  show (decide (objRedirect s A o.data = μ.id) = true) ↔ (decide (o.data = μ.id) = true)
  simp only [decide_eq_true_eq]
  exact objRedirect_eq_iff hnotin o.data

theorem meshStep_skip {st : MeshPassState} {μ : Mesh}
    (h : meshUsers st.objects μ = 0) : meshStep st μ = st := by
  rw [meshStep, if_pos h]

theorem meshStep_fresh {st : MeshPassState} {μ : Mesh}
    (h : ¬ meshUsers st.objects μ = 0)
    (h2 : alookup st.map (geomHash μ) = none) :
    meshStep st μ = { st with map := st.map ++ [(geomHash μ, μ.id)] } := by
  rw [meshStep, if_neg h, h2]

theorem meshStep_dup {st : MeshPassState} {μ : Mesh} {srcId : Nat}
    (h : ¬ meshUsers st.objects μ = 0)
    (h2 : alookup st.map (geomHash μ) = some srcId) :
    meshStep st μ =
      { map := st.map,
        objects := st.objects.map fun o =>
          if o.data = μ.id then { o with data := srcId } else o,
        toDelete :=
          if meshUsers
              (st.objects.map fun o =>
                if o.data = μ.id then { o with data := srcId } else o) μ = 0 then
            st.toDelete ++ [μ.name]
          else st.toDelete } := by
  rw [meshStep, if_neg h, h2]

theorem dupQueuedB_append_mem {s : MeshScene} {A : List Mesh} (μ : Mesh)
    {m : Mesh} (hm : m ∈ A) :
    dupQueuedB s (A ++ [μ]) m = dupQueuedB s A m := by
  by_cases hu : 0 < meshUsers s.objects m
  · rcases firstSurvivor_self hm hu with ⟨m', hfs⟩
    rw [dupQueuedB, dupQueuedB, hfs, firstSurvivor_append [μ] hfs]
  · rw [dupQueuedB, dupQueuedB]
    simp [hu]

theorem objRedirect_append_found {s : MeshScene} {A : List Mesh} (μ : Mesh)
    {d : Nat} {m : Mesh}
    (hfind : A.find? (fun m => decide (m.id = d)) = some m) :
    objRedirect s (A ++ [μ]) d = objRedirect s A d := by
  rw [objRedirect, objRedirect, List.find?_append, hfind]
  show (if 0 < meshUsers s.objects m then
      match firstSurvivor s (A ++ [μ]) (geomHash m) with
      | some msrc => msrc.id
      | none => d
    else d) =
    (if 0 < meshUsers s.objects m then
      match firstSurvivor s A (geomHash m) with
      | some msrc => msrc.id
      | none => d
    else d)
  by_cases hu : 0 < meshUsers s.objects m
  · rcases firstSurvivor_self (List.mem_of_find?_eq_some hfind) hu with ⟨m', hfs⟩
    rw [hfs, firstSurvivor_append [μ] hfs]
  · rw [if_neg hu, if_neg hu]

theorem nodup_split_ne {α β : Type} (f : α → β) {L A B : List α} {x : α}
    (h : L = A ++ x :: B) (hn : (L.map f).Nodup) : ∀ a ∈ A, f a ≠ f x := by
  subst h
  rw [List.map_append, List.map_cons] at hn
  rcases List.nodup_append.mp hn with ⟨_, _, hdisj⟩
  intro a ha heq
  exact hdisj (List.mem_map_of_mem f ha)
    (heq ▸ List.mem_cons_self (f a) (B.map f))

theorem objRedirect_notfound {s : MeshScene} {A : List Mesh} {d : Nat}
    (hfind : A.find? (fun m => decide (m.id = d)) = none) :
    objRedirect s A d = d := by
  rw [objRedirect, hfind]

theorem find?_singleton {α : Type} (p : α → Bool) (a : α) :
    [a].find? p = if p a then some a else none := by
  cases hpa : p a <;> simp [List.find?, hpa]

theorem countP_subst_zero {objs : List MObj} {μid srcId : Nat}
    (hne : srcId ≠ μid) :
    ((objs.map fun o => if o.data = μid then { o with data := srcId } else o).countP
      fun o => decide (o.data = μid)) = 0 := by
  rw [List.countP_map, List.countP_eq_zero]
  intro o _
  show ¬ (decide ((if o.data = μid then { o with data := srcId } else o).data = μid)
    = true)
  by_cases h : o.data = μid
  · rw [if_pos h]
    simp [hne]
  · rw [if_neg h]
    simp [h]

theorem meshStep_inv (s : MeshScene)
    (hids : (s.meshes.map (fun m => m.id)).Nodup)
    {A B : List Mesh} {μ : Mesh} (hsplit : s.meshes = A ++ μ :: B)
    {st : MeshPassState} (hinv : MeshInv s A st) :
    MeshInv s (A ++ [μ]) (meshStep st μ) := by
  obtain ⟨hmap, hobjs, hdel⟩ := hinv
  have hnotin : ∀ m ∈ A, m.id ≠ μ.id := nodup_split_ne (fun m => m.id) hsplit hids
  have hturn : meshUsers st.objects μ = meshUsers s.objects μ := by
    rw [hobjs]
    exact meshUsers_redirect hnotin
  have hfindA : A.find? (fun m => decide (m.id = μ.id)) = none := by
    cases hf : A.find? (fun m => decide (m.id = μ.id)) with
    | none => rfl
    | some m =>
      have hh : m.id = μ.id := by simpa using List.find?_some hf
      exact absurd hh (hnotin m (List.mem_of_find?_eq_some hf))
  have hdelstep : ∀ dq : Mesh → Bool, dq μ = dupQueuedB s (A ++ [μ]) μ →
      (∀ m ∈ A, dupQueuedB s (A ++ [μ]) m = dupQueuedB s A m) →
      ((A ++ [μ]).filter (dupQueuedB s (A ++ [μ]))).map (fun m => m.name) =
        ((A.filter (dupQueuedB s A)).map (fun m => m.name)) ++
          (if dupQueuedB s (A ++ [μ]) μ then [μ.name] else []) := by
    intro _ _ hstable
    rw [List.filter_append, List.filter_congr hstable, List.map_append]
    congr 1
    cases hq : dupQueuedB s (A ++ [μ]) μ <;> simp [List.filter_cons, hq]
  by_cases hu : meshUsers s.objects μ = 0
  · -- the mesh has no users and is skipped
    rw [meshStep_skip (by rw [hturn]; exact hu)]
    have huhb : ∀ h, userHashB s h μ = false := by
      intro h
      rw [userHashB, hu]
      simp
    refine ⟨?_, ?_, ?_⟩
    · intro h
      rw [hmap h]
      cases hfs : firstSurvivor s A h with
      | some m => rw [firstSurvivor_append [μ] hfs]
      | none => rw [firstSurvivor_append_fail hfs (huhb h)]
    · rw [hobjs]
      refine map_ext _ _ _ fun o => ?_
      refine congrArg (MObj.mk o.id) ?_
      cases hfind : A.find? (fun m => decide (m.id = o.data)) with
      | some m => exact (objRedirect_append_found μ hfind).symm
      | none =>
        rw [objRedirect_notfound hfind, objRedirect, List.find?_append, hfind]
        show o.data = (match [μ].find? (fun m => decide (m.id = o.data)) with
          | some m =>
            if 0 < meshUsers s.objects m then
              match firstSurvivor s (A ++ [μ]) (geomHash m) with
              | some msrc => msrc.id
              | none => o.data
            else o.data
          | none => o.data)
        rw [find?_singleton]
        by_cases hμd : μ.id = o.data
        · rw [if_pos (by simpa using hμd)]
          show o.data = (if 0 < meshUsers s.objects μ then
            match firstSurvivor s (A ++ [μ]) (geomHash μ) with
            | some msrc => msrc.id
            | none => o.data
            else o.data)
          rw [if_neg (by omega)]
        · rw [if_neg (by simpa using hμd)]
    · rw [hdel, hdelstep (dupQueuedB s (A ++ [μ])) rfl
        (fun m hm => dupQueuedB_append_mem μ hm)]
      have hq : dupQueuedB s (A ++ [μ]) μ = false := by
        rw [dupQueuedB, hu]
        simp
      rw [hq]
      simp
  · -- the mesh has users and is processed
    cases hfs : firstSurvivor s A (geomHash μ) with
    | none =>
      -- fresh geometry: recorded as source
      have hlook : alookup st.map (geomHash μ) = none := by
        rw [hmap (geomHash μ), hfs]
        rfl
      rw [meshStep_fresh (by rw [hturn]; exact hu) hlook]
      have hhit : ∀ h, geomHash μ = h → firstSurvivor s (A ++ [μ]) h = some μ := by
        intro h hh
        subst hh
        exact firstSurvivor_append_hit hfs (by rw [userHashB]; simp [Nat.pos_of_ne_zero hu])
      refine ⟨?_, ?_, ?_⟩
      · intro h
        show alookup (st.map ++ [(geomHash μ, μ.id)]) h = _
        rw [alookup_append]
        cases hlk : alookup st.map h with
        | some v =>
          rw [hmap h] at hlk
          cases hfsh : firstSurvivor s A h with
          | none => rw [hfsh] at hlk; exact Option.noConfusion hlk
          | some m =>
            rw [firstSurvivor_append [μ] hfsh]
            show some v = (some m).map (fun m => m.id)
            rw [hfsh] at hlk
            exact hlk.symm
        | none =>
          rw [hmap h] at hlk
          have hfsh : firstSurvivor s A h = none := by
            cases hfsh : firstSurvivor s A h with
            | none => rfl
            | some m => rw [hfsh] at hlk; exact Option.noConfusion hlk
          by_cases hh : geomHash μ = h
          · rw [hhit h hh]
            show alookup [(geomHash μ, μ.id)] h = some μ.id
            rw [alookup]
            rw [if_pos hh]
          · rw [firstSurvivor_append_fail hfsh (by rw [userHashB]; simp [hh])]
            show alookup [(geomHash μ, μ.id)] h = none
            rw [alookup]
            rw [if_neg hh]
            rfl
      · show st.objects = _
        rw [hobjs]
        refine map_ext _ _ _ fun o => ?_
        refine congrArg (MObj.mk o.id) ?_
        cases hfind : A.find? (fun m => decide (m.id = o.data)) with
        | some m => exact (objRedirect_append_found μ hfind).symm
        | none =>
          rw [objRedirect_notfound hfind, objRedirect, List.find?_append, hfind]
          show o.data = (match [μ].find? (fun m => decide (m.id = o.data)) with
            | some m =>
              if 0 < meshUsers s.objects m then
                match firstSurvivor s (A ++ [μ]) (geomHash m) with
                | some msrc => msrc.id
                | none => o.data
              else o.data
            | none => o.data)
          rw [find?_singleton]
          by_cases hμd : μ.id = o.data
          · rw [if_pos (by simpa using hμd)]
            show o.data = (if 0 < meshUsers s.objects μ then
              match firstSurvivor s (A ++ [μ]) (geomHash μ) with
              | some msrc => msrc.id
              | none => o.data
              else o.data)
            rw [if_pos (Nat.pos_of_ne_zero hu), hhit (geomHash μ) rfl]
            exact hμd.symm
          · rw [if_neg (by simpa using hμd)]
      · show st.toDelete = _
        rw [hdel, hdelstep (dupQueuedB s (A ++ [μ])) rfl
          (fun m hm => dupQueuedB_append_mem μ hm)]
        have hq : dupQueuedB s (A ++ [μ]) μ = false := by
          rw [dupQueuedB, hhit (geomHash μ) rfl]
          simp
        rw [hq]
        simp
    | some msrc =>
      -- duplicate geometry: objects repointed, possibly queued
      have hlook : alookup st.map (geomHash μ) = some msrc.id := by
        rw [hmap (geomHash μ), hfs]
        rfl
      have hmsrcA : msrc ∈ A := firstSurvivor_mem hfs
      have hmsrcne : msrc.id ≠ μ.id := hnotin msrc hmsrcA
      have hfs' : firstSurvivor s (A ++ [μ]) (geomHash μ) = some msrc :=
        firstSurvivor_append [μ] hfs
      rw [meshStep_dup (by rw [hturn]; exact hu) hlook]
      refine ⟨?_, ?_, ?_⟩
      · intro h
        show alookup st.map h = _
        rw [hmap h]
        cases hfsh : firstSurvivor s A h with
        | some m => rw [firstSurvivor_append [μ] hfsh]
        | none =>
          have hh : ¬ (geomHash μ = h) := by
            intro hh
            rw [← hh, hfs] at hfsh
            exact Option.noConfusion hfsh
          rw [firstSurvivor_append_fail hfsh (by rw [userHashB]; simp [hh])]
      · show st.objects.map _ = _
        rw [hobjs, List.map_map]
        refine map_ext _ _ _ fun o => ?_
        show (if (MObj.mk o.id (objRedirect s A o.data)).data = μ.id then
            MObj.mk o.id msrc.id
          else MObj.mk o.id (objRedirect s A o.data)) =
          MObj.mk o.id (objRedirect s (A ++ [μ]) o.data)
        by_cases hμd : o.data = μ.id
        · rw [if_pos (by
            show objRedirect s A o.data = μ.id
            exact (objRedirect_eq_iff hnotin o.data).mpr hμd)]
          refine congrArg (MObj.mk o.id) ?_
          have hfindA' : A.find? (fun m => decide (m.id = o.data)) = none := by
            rw [hμd]
            exact hfindA
          rw [objRedirect, List.find?_append, hfindA']
          show msrc.id = (match [μ].find? (fun m => decide (m.id = o.data)) with
            | some m =>
              if 0 < meshUsers s.objects m then
                match firstSurvivor s (A ++ [μ]) (geomHash m) with
                | some msrc => msrc.id
                | none => o.data
              else o.data
            | none => o.data)
          rw [find?_singleton, if_pos (by simp [hμd])]
          show msrc.id = (if 0 < meshUsers s.objects μ then
            match firstSurvivor s (A ++ [μ]) (geomHash μ) with
            | some msrc => msrc.id
            | none => o.data
            else o.data)
          rw [if_pos (Nat.pos_of_ne_zero hu), hfs']
        · rw [if_neg (by
            show ¬ (objRedirect s A o.data = μ.id)
            exact fun hh => hμd ((objRedirect_eq_iff hnotin o.data).mp hh))]
          refine congrArg (MObj.mk o.id) ?_
          cases hfind : A.find? (fun m => decide (m.id = o.data)) with
          | some m => exact (objRedirect_append_found μ hfind).symm
          | none =>
            rw [objRedirect_notfound hfind, objRedirect, List.find?_append, hfind]
            show o.data = (match [μ].find? (fun m => decide (m.id = o.data)) with
              | some m =>
                if 0 < meshUsers s.objects m then
                  match firstSurvivor s (A ++ [μ]) (geomHash m) with
                  | some msrc => msrc.id
                  | none => o.data
                else o.data
              | none => o.data)
            rw [find?_singleton, if_neg (by simp; exact fun hh => hμd hh.symm)]
      · show (if meshUsers (st.objects.map fun o =>
            if o.data = μ.id then { o with data := msrc.id } else o) μ = 0 then
            st.toDelete ++ [μ.name] else st.toDelete) = _
        have hcount : meshUsers (st.objects.map fun o =>
            if o.data = μ.id then { o with data := msrc.id } else o) μ =
            μ.fakeUsers := by
          rw [meshUsers, countP_subst_zero hmsrcne, Nat.zero_add]
        have hq : dupQueuedB s (A ++ [μ]) μ = decide (μ.fakeUsers = 0) := by
          rw [dupQueuedB, hfs']
          have hmsne : ¬ (some msrc = some μ) := by
            intro hh
            exact hmsrcne (congrArg Mesh.id (Option.some.inj hh))
          simp [Nat.pos_of_ne_zero hu, hmsne]
        rw [hdel, hdelstep (dupQueuedB s (A ++ [μ])) rfl
          (fun m hm => dupQueuedB_append_mem μ hm), hq, hcount]
        by_cases hfake : μ.fakeUsers = 0
        · rw [if_pos hfake, if_pos (by simp [hfake])]
        · rw [if_neg hfake, if_neg (by simp [hfake]), List.append_nil]

theorem meshFold_inv (s : MeshScene)
    (hids : (s.meshes.map (fun m => m.id)).Nodup) :
    ∀ (B A : List Mesh) (st : MeshPassState), s.meshes = A ++ B →
    MeshInv s A st → MeshInv s (A ++ B) (B.foldl meshStep st) := by
  intro B
  induction B with
  | nil =>
    intro A st hsplit hinv
    rw [List.append_nil]
    exact hinv
  | cons μ B ih =>
    intro A st hsplit hinv
    have hstep := meshStep_inv s hids hsplit hinv
    have hsplit' : s.meshes = (A ++ [μ]) ++ B := by
      rw [hsplit, List.append_assoc]
      rfl
    have := ih (A ++ [μ]) (meshStep st μ) hsplit' hstep
    rw [List.append_assoc] at this
    exact this

theorem meshPass1_inv (s : MeshScene)
    (hids : (s.meshes.map (fun m => m.id)).Nodup) :
    MeshInv s s.meshes (meshPass1 s) := by
  have hinit : MeshInv s []
      { map := [], objects := s.objects, toDelete := [] } := by
    refine ⟨fun h => rfl, ?_, rfl⟩
    show s.objects = s.objects.map fun o => MObj.mk o.id (objRedirect s [] o.data)
    have : ∀ o : MObj, MObj.mk o.id (objRedirect s [] o.data) = o := fun o => rfl
    rw [map_ext _ id _ this, List.map_id]
  have := meshFold_inv s hids s.meshes []
    { map := [], objects := s.objects, toDelete := [] } rfl hinit
  rw [List.nil_append] at this
  exact this

/-! ### The deletion pass -/

theorem eraseP_eq_filter_of_unique {L : List Mesh} {nm : String}
    (huniq : (L.map (fun m => m.name)).Nodup) :
    L.eraseP (fun m => decide (m.name = nm)) =
      L.filter (fun m => decide (m.name ≠ nm)) := by
  induction L with
  | nil => rfl
  | cons a L ih =>
    rw [List.map_cons, List.nodup_cons] at huniq
    by_cases ha : a.name = nm
    · have hrest : L.filter (fun m => !decide (m.name = nm)) = L :=
        List.filter_eq_self.mpr fun m hm => by
          have hne : m.name ≠ nm := fun hmn =>
            huniq.1 (by rw [ha, ← hmn]; exact List.mem_map_of_mem _ hm)
          simp [hne]
      simp [List.eraseP_cons, List.filter_cons, ha, hrest]
    · simp [List.eraseP_cons, List.filter_cons, ha, ih huniq.2]

theorem meshDeleteStep_eq {sc : MeshScene} {nm : String}
    (huniq : (sc.meshes.map (fun m => m.name)).Nodup) :
    meshDeleteStep sc nm =
      { sc with meshes := sc.meshes.filter (fun m => decide (m.name ≠ nm)) } := by
  rw [meshDeleteStep]
  cases hf : sc.meshes.find? (fun m => decide (m.name = nm)) with
  | some m =>
    rw [eraseP_eq_filter_of_unique huniq]
  | none =>
    have : sc.meshes.filter (fun m => decide (m.name ≠ nm)) = sc.meshes := by
      apply List.filter_eq_self.mpr
      intro m hm
      simp only [decide_eq_true_eq]
      intro hmn
      have := List.find?_eq_none.mp hf m hm
      simp [hmn] at this
    rw [this]

theorem meshDeleteFold_meshes :
    ∀ (names : List String) (sc : MeshScene),
    (sc.meshes.map (fun m => m.name)).Nodup →
    names.foldl meshDeleteStep sc =
      { meshes := sc.meshes.filter (fun m => decide (m.name ∉ names)),
        objects := sc.objects } := by
  intro names
  induction names with
  | nil =>
    intro sc _
    show sc = _
    have : sc.meshes.filter (fun m => decide (m.name ∉ ([] : List String))) =
        sc.meshes := by
      apply List.filter_eq_self.mpr
      intro m _
      simp
    rw [this]
  | cons nm names ih =>
    intro sc huniq
    show names.foldl meshDeleteStep (meshDeleteStep sc nm) = _
    rw [meshDeleteStep_eq huniq]
    rw [ih _ (by
      refine List.Nodup.sublist ?_ huniq
      exact (List.filter_sublist _).map _)]
    show MeshScene.mk _ sc.objects = MeshScene.mk _ sc.objects
    rw [List.filter_filter]
    congr 1
    apply List.filter_congr
    intro m _
    show (decide (m.name ∉ names) && decide (m.name ≠ nm)) =
      decide (m.name ∉ nm :: names)
    by_cases h1 : m.name = nm
    · simp [h1]
    · by_cases h2 : m.name ∈ names <;> simp [h1, h2]

theorem nodup_map_inj {α β : Type} {f : α → β} {L : List α}
    (h : (L.map f).Nodup) {x y : α} (hx : x ∈ L) (hy : y ∈ L)
    (hxy : f x = f y) : x = y :=
  List.inj_on_of_nodup_map h hx hy hxy

theorem find_self {α β : Type} [DecidableEq β] {f : α → β} {L : List α}
    (h : (L.map f).Nodup) {m : α} (hm : m ∈ L) :
    L.find? (fun x => decide (f x = f m)) = some m := by
  induction L with
  | nil => cases hm
  | cons a L ih =>
    rw [List.map_cons, List.nodup_cons] at h
    rcases List.mem_cons.mp hm with he | hmem
    · subst he
      rw [List.find?_cons_of_pos _ (by simp)]
    · by_cases ha : f a = f m
      · exact absurd (ha ▸ List.mem_map_of_mem f hmem) h.1
      · rw [List.find?_cons_of_neg _ (by simpa using ha)]
        exact ih h.2 hmem

theorem dupQueuedB_elim {s : MeshScene} {m : Mesh}
    (hq : dupQueuedB s s.meshes m = true) :
    0 < meshUsers s.objects m ∧
      firstSurvivor s s.meshes (geomHash m) ≠ some m ∧ m.fakeUsers = 0 := by
  rw [dupQueuedB] at hq
  simp only [Bool.and_eq_true, decide_eq_true_eq] at hq
  exact ⟨hq.1.1, hq.1.2, hq.2⟩

/-- No object reference produced by the first pass points at a queued
mesh: queued meshes lost their object users and are never chosen as a
redirect target. -/
theorem redirect_ne_queued (s : MeshScene) (hwf : MeshSceneWF s)
    {m : Mesh} (hm : m ∈ s.meshes)
    (hq : dupQueuedB s s.meshes m = true) (d : Nat) :
    objRedirect s s.meshes d ≠ m.id := by
  obtain ⟨hq1, hq2, _⟩ := dupQueuedB_elim hq
  intro hcontra
  rw [objRedirect] at hcontra
  cases hfind : s.meshes.find? (fun x => decide (x.id = d)) with
  | none =>
    rw [hfind] at hcontra
    have hd : d = m.id := hcontra
    have hfs2 : s.meshes.find? (fun x => decide (x.id = d)) = some m := by
      rw [hd]
      exact find_self hwf.1 hm
    rw [hfind] at hfs2
    exact Option.noConfusion hfs2
  | some m₂ =>
    rw [hfind] at hcontra
    have hc : (if 0 < meshUsers s.objects m₂ then
        match firstSurvivor s s.meshes (geomHash m₂) with
        | some msrc => msrc.id
        | none => d
      else d) = m.id := hcontra
    have hm₂ : m₂ ∈ s.meshes := List.mem_of_find?_eq_some hfind
    have hm₂d : m₂.id = d := by simpa using List.find?_some hfind
    by_cases hu : 0 < meshUsers s.objects m₂
    · rw [if_pos hu] at hc
      cases hfs : firstSurvivor s s.meshes (geomHash m₂) with
      | none =>
        rcases firstSurvivor_self hm₂ hu with ⟨m', hm'⟩
        rw [hm'] at hfs
        exact Option.noConfusion hfs
      | some msf =>
        rw [hfs] at hc
        have hmsf : msf = m :=
          nodup_map_inj hwf.1 (firstSurvivor_mem hfs) hm hc
        subst hmsf
        have hhash : geomHash msf = geomHash m₂ := (firstSurvivor_props hfs).2
        rw [← hhash] at hfs
        exact hq2 hfs
    · rw [if_neg hu] at hc
      have hm₂m : m₂ = m := nodup_map_inj hwf.1 hm₂ hm (by rw [hm₂d]; exact hc)
      subst hm₂m
      exact hu hq1

/-- The deletion queue the first pass produces. -/
def meshQueue (s : MeshScene) : List String :=
  (s.meshes.filter (dupQueuedB s s.meshes)).map (fun m => m.name)

theorem meshPass1_objects (s : MeshScene) (hwf : MeshSceneWF s) :
    (meshPass1 s).objects =
      s.objects.map (fun o => MObj.mk o.id (objRedirect s s.meshes o.data)) :=
  (meshPass1_inv s hwf.1).2.1

theorem meshPass1_toDelete (s : MeshScene) (hwf : MeshSceneWF s) :
    (meshPass1 s).toDelete = meshQueue s :=
  (meshPass1_inv s hwf.1).2.2

theorem remove_duplicate_meshes_char (s : MeshScene) (hwf : MeshSceneWF s) :
    remove_duplicate_meshes s =
      { meshes := s.meshes.filter (fun m => decide (m.name ∉ meshQueue s)),
        objects := s.objects.map
          (fun o => MObj.mk o.id (objRedirect s s.meshes o.data)) } := by
  rw [remove_duplicate_meshes, meshPass1_toDelete s hwf,
    meshPass1_objects s hwf]
  exact meshDeleteFold_meshes (meshQueue s) _ hwf.2

theorem queued_of_name_mem {s : MeshScene} (hwf : MeshSceneWF s)
    {m : Mesh} (hm : m ∈ s.meshes) (hname : m.name ∈ meshQueue s) :
    dupQueuedB s s.meshes m = true := by
  rcases List.mem_map.mp hname with ⟨mq, hmq, hnm⟩
  have hmqmem : mq ∈ s.meshes := (List.mem_filter.mp hmq).1
  have hmqq := (List.mem_filter.mp hmq).2
  have hmqm : mq = m := nodup_map_inj hwf.2 hmqmem hm hnm
  exact hmqm ▸ hmqq

/-- Reference integrity of the mesh pass: after the pass no object points
at a mesh that the pass deleted. -/
theorem mesh_reference_integrity (s : MeshScene) (hwf : MeshSceneWF s) :
    ∀ o ∈ (remove_duplicate_meshes s).objects, ∀ m ∈ s.meshes,
      m.id = o.data →
      ∃ m', m' ∈ (remove_duplicate_meshes s).meshes ∧ m'.id = o.data := by
  rw [remove_duplicate_meshes_char s hwf]
  intro o ho m hm hid
  rcases List.mem_map.mp ho with ⟨o₀, ho₀, hoeq⟩
  have hdata : o.data = objRedirect s s.meshes o₀.data := by rw [← hoeq]
  refine ⟨m, ?_, hid⟩
  rw [List.mem_filter]
  refine ⟨hm, ?_⟩
  simp only [decide_eq_true_eq]
  intro hmem
  have hq := queued_of_name_mem hwf hm hmem
  exact redirect_ne_queued s hwf hm hq o₀.data (by rw [← hdata, ← hid])

/-- The partial state of the deletion pass after i deletions. -/
def meshDelPartial (s : MeshScene) (i : Nat) : MeshScene :=
  (((meshPass1 s).toDelete).take i).foldl meshDeleteStep
    { meshes := s.meshes, objects := (meshPass1 s).objects }

/-- Deletion safety of the mesh pass: any mesh that disappears at a
deletion step has user count zero in the state just before that step. -/
theorem mesh_deletion_safe (s : MeshScene) (hwf : MeshSceneWF s) (i : Nat) :
    ∀ m ∈ (meshDelPartial s i).meshes, m ∉ (meshDelPartial s (i + 1)).meshes →
      meshUsers (meshDelPartial s i).objects m = 0 := by
  intro m hmem hgone
  have hchar : ∀ j, meshDelPartial s j =
      { meshes := s.meshes.filter
          (fun m => decide (m.name ∉ ((meshPass1 s).toDelete).take j)),
        objects := (meshPass1 s).objects } := by
    intro j
    rw [meshDelPartial]
    exact meshDeleteFold_meshes _ _ hwf.2
  rw [hchar i] at hmem
  rw [hchar (i + 1)] at hgone
  rw [hchar i]
  have hmem' := List.mem_filter.mp hmem
  have hms : m ∈ s.meshes := hmem'.1
  have hnotin : m.name ∉ ((meshPass1 s).toDelete).take i := by
    simpa using hmem'.2
  have hin : m.name ∈ ((meshPass1 s).toDelete).take (i + 1) := by
    by_contra hni
    exact hgone (List.mem_filter.mpr ⟨hms, by simpa using hni⟩)
  have hinQ : m.name ∈ meshQueue s := by
    rw [← meshPass1_toDelete s hwf]
    exact List.mem_of_mem_take hin
  have hq := queued_of_name_mem hwf hms hinQ
  show meshUsers (meshPass1 s).objects m = 0
  rw [meshPass1_objects s hwf, meshUsers, List.countP_map]
  have hcount : (s.objects.countP ((fun o => decide (o.data = m.id)) ∘
      fun o => MObj.mk o.id (objRedirect s s.meshes o.data))) = 0 := by
    rw [List.countP_eq_zero]
    intro o _
    simp only [Function.comp_apply, decide_eq_true_eq]
    exact redirect_ne_queued s hwf hms hq o.data
  rw [hcount, Nat.zero_add]
  exact (dupQueuedB_elim hq).2.2

/-! ### Idempotence of the mesh pass -/

theorem users2_eq (s : MeshScene) (hwf : MeshSceneWF s) (m : Mesh) :
    meshUsers (remove_duplicate_meshes s).objects m =
      s.objects.countP
          (fun o => decide (objRedirect s s.meshes o.data = m.id)) +
        m.fakeUsers := by
  rw [remove_duplicate_meshes_char s hwf]
  show meshUsers (s.objects.map _) m = _
  rw [meshUsers, List.countP_map]
  rfl

theorem users2_zero {s : MeshScene} (hwf : MeshSceneWF s) {m : Mesh}
    (hm : m ∈ s.meshes) (hu : meshUsers s.objects m = 0) :
    meshUsers (remove_duplicate_meshes s).objects m = 0 := by
  rw [users2_eq s hwf]
  have hfake : m.fakeUsers = 0 := by rw [meshUsers] at hu; omega
  have hcnt : s.objects.countP (fun o => decide (o.data = m.id)) = 0 := by
    rw [meshUsers] at hu; omega
  have hmain : s.objects.countP
      (fun o => decide (objRedirect s s.meshes o.data = m.id)) = 0 := by
    rw [List.countP_eq_zero]
    intro o ho
    simp only [decide_eq_true_eq]
    intro hR
    rw [objRedirect] at hR
    cases hfind : s.meshes.find? (fun x => decide (x.id = o.data)) with
    | none =>
      rw [hfind] at hR
      have hod : o.data = m.id := hR
      have := List.countP_eq_zero.mp hcnt o ho
      simp [hod] at this
    | some m₂ =>
      rw [hfind] at hR
      have hc : (if 0 < meshUsers s.objects m₂ then
          match firstSurvivor s s.meshes (geomHash m₂) with
          | some msrc => msrc.id
          | none => o.data
        else o.data) = m.id := hR
      have hm₂ : m₂ ∈ s.meshes := List.mem_of_find?_eq_some hfind
      have hm₂d : m₂.id = o.data := by simpa using List.find?_some hfind
      by_cases hu₂ : 0 < meshUsers s.objects m₂
      · rw [if_pos hu₂] at hc
        cases hfs : firstSurvivor s s.meshes (geomHash m₂) with
        | none =>
          rcases firstSurvivor_self hm₂ hu₂ with ⟨m', hm'⟩
          rw [hm'] at hfs
          exact Option.noConfusion hfs
        | some msf =>
          rw [hfs] at hc
          have hmsf : msf = m :=
            nodup_map_inj hwf.1 (firstSurvivor_mem hfs) hm hc
          subst hmsf
          have := (firstSurvivor_props hfs).1
          omega
      · rw [if_neg hu₂] at hc
        have hm₂m : m₂ = m :=
          nodup_map_inj hwf.1 hm₂ hm (by rw [hm₂d]; exact hc)
        subst hm₂m
        have := List.countP_eq_zero.mp hcnt o ho
        simp [← hm₂d] at this
  rw [hmain, hfake]

theorem users2_pos_of_survivor {s : MeshScene} (hwf : MeshSceneWF s) {m : Mesh}
    (hfs : firstSurvivor s s.meshes (geomHash m) = some m) :
    0 < meshUsers (remove_duplicate_meshes s).objects m := by
  rw [users2_eq s hwf]
  have hm : m ∈ s.meshes := firstSurvivor_mem hfs
  have hu : 0 < meshUsers s.objects m := (firstSurvivor_props hfs).1
  by_cases hfake : 0 < m.fakeUsers
  · omega
  · have hcnt : 0 < s.objects.countP (fun o => decide (o.data = m.id)) := by
      rw [meshUsers] at hu
      omega
    rcases List.countP_pos.mp hcnt with ⟨o, ho, hpo⟩
    have hdata : o.data = m.id := by simpa using hpo
    have hR : objRedirect s s.meshes o.data = m.id := by
      rw [objRedirect]
      have hfind : s.meshes.find? (fun x => decide (x.id = o.data)) = some m := by
        rw [hdata]
        exact find_self hwf.1 hm
      rw [hfind]
      show (if 0 < meshUsers s.objects m then
        match firstSurvivor s s.meshes (geomHash m) with
        | some msrc => msrc.id
        | none => o.data
        else o.data) = m.id
      rw [if_pos hu, hfs]
    have hpos : 0 < s.objects.countP
        (fun o => decide (objRedirect s s.meshes o.data = m.id)) :=
      List.countP_pos.mpr ⟨o, ho, by simpa using hR⟩
    omega

theorem find?_filter_first {α : Type} (p₁ p₂ q : α → Bool) :
    ∀ (L : List α) (m : α), (∀ a ∈ L, p₂ a = true → p₁ a = true) →
    L.find? p₁ = some m → q m = true → p₂ m = true →
    (L.filter q).find? p₂ = some m := by
  intro L
  induction L with
  | nil =>
    intro m _ h
    exact absurd h (by simp)
  | cons a L ih =>
    intro m himp hfind hq hp2
    by_cases hp1 : p₁ a = true
    · rw [List.find?_cons_of_pos _ hp1] at hfind
      cases hfind
      rw [List.filter_cons, if_pos hq, List.find?_cons_of_pos _ hp2]
    · rw [List.find?_cons_of_neg _ hp1] at hfind
      have hp2a : ¬ p₂ a = true := fun h =>
        hp1 (himp a (List.mem_cons_self a L) h)
      have hrec := ih m (fun x hx => himp x (List.mem_cons_of_mem a hx))
        hfind hq hp2
      rw [List.filter_cons]
      by_cases hqa : q a = true
      · rw [if_pos hqa, List.find?_cons_of_neg _ hp2a]
        exact hrec
      · rw [if_neg hqa]
        exact hrec

theorem userHashB_elim {s : MeshScene} {h : GeomHash} {m : Mesh}
    (hp : userHashB s h m = true) :
    0 < meshUsers s.objects m ∧ geomHash m = h := by
  rw [userHashB] at hp
  simpa using hp

theorem userHashB_intro {s : MeshScene} {h : GeomHash} {m : Mesh}
    (h1 : 0 < meshUsers s.objects m) (h2 : geomHash m = h) :
    userHashB s h m = true := by
  rw [userHashB]
  simp [h1, h2]

theorem survivor_notin_queue {s : MeshScene} (hwf : MeshSceneWF s) {m : Mesh}
    (hfs : firstSurvivor s s.meshes (geomHash m) = some m) :
    m.name ∉ meshQueue s := by
  intro hmem
  have hq := queued_of_name_mem hwf (firstSurvivor_mem hfs) hmem
  exact (dupQueuedB_elim hq).2.1 hfs

theorem mem_run2_meshes {s : MeshScene} (hwf : MeshSceneWF s) {m : Mesh}
    (hm : m ∈ s.meshes) (hnq : m.name ∉ meshQueue s) :
    m ∈ (remove_duplicate_meshes s).meshes := by
  rw [remove_duplicate_meshes_char s hwf]
  exact List.mem_filter.mpr ⟨hm, by simpa using hnq⟩

theorem fs_run2 {s : MeshScene} (hwf : MeshSceneWF s) {m : Mesh}
    (hfs : firstSurvivor s s.meshes (geomHash m) = some m) :
    firstSurvivor (remove_duplicate_meshes s)
        (remove_duplicate_meshes s).meshes (geomHash m) = some m := by
  have hmeshes : (remove_duplicate_meshes s).meshes =
      s.meshes.filter (fun m => decide (m.name ∉ meshQueue s)) := by
    rw [remove_duplicate_meshes_char s hwf]
  rw [firstSurvivor, hmeshes]
  refine find?_filter_first _ _ _ s.meshes m ?_ hfs
    (by simpa using survivor_notin_queue hwf hfs)
    (userHashB_intro (users2_pos_of_survivor hwf hfs) rfl)
  intro a ha hp2
  rcases userHashB_elim hp2 with ⟨hu2, hh⟩
  refine userHashB_intro ?_ hh
  by_contra hz
  rw [users2_zero hwf ha (by omega)] at hu2
  omega

theorem mesh_wf_run2 (s : MeshScene) (hwf : MeshSceneWF s) :
    MeshSceneWF (remove_duplicate_meshes s) := by
  have hmeshes : (remove_duplicate_meshes s).meshes =
      s.meshes.filter (fun m => decide (m.name ∉ meshQueue s)) := by
    rw [remove_duplicate_meshes_char s hwf]
  constructor
  · rw [hmeshes]
    exact List.Nodup.sublist ((List.filter_sublist _).map _) hwf.1
  · rw [hmeshes]
    exact List.Nodup.sublist ((List.filter_sublist _).map _) hwf.2

theorem redirect_run2 (s : MeshScene) (hwf : MeshSceneWF s) (d : Nat) :
    objRedirect (remove_duplicate_meshes s) (remove_duplicate_meshes s).meshes
        (objRedirect s s.meshes d) =
      objRedirect s s.meshes d := by
  have hwf' := mesh_wf_run2 s hwf
  have hmeshes : (remove_duplicate_meshes s).meshes =
      s.meshes.filter (fun m => decide (m.name ∉ meshQueue s)) := by
    rw [remove_duplicate_meshes_char s hwf]
  cases hfind : s.meshes.find? (fun x => decide (x.id = d)) with
  | none =>
    rw [objRedirect_notfound hfind]
    apply objRedirect_notfound
    rw [List.find?_eq_none]
    intro x hx
    have hxs : x ∈ s.meshes := by
      rw [hmeshes] at hx
      exact (List.mem_filter.mp hx).1
    exact List.find?_eq_none.mp hfind x hxs
  | some m₂ =>
    have hm₂ : m₂ ∈ s.meshes := List.mem_of_find?_eq_some hfind
    have hm₂d : m₂.id = d := by simpa using List.find?_some hfind
    by_cases hu₂ : 0 < meshUsers s.objects m₂
    · rcases firstSurvivor_self hm₂ hu₂ with ⟨msf, hfs⟩
      have hval : objRedirect s s.meshes d = msf.id := by
        rw [objRedirect, hfind]
        show (if 0 < meshUsers s.objects m₂ then
          match firstSurvivor s s.meshes (geomHash m₂) with
          | some msrc => msrc.id
          | none => d
          else d) = msf.id
        rw [if_pos hu₂, hfs]
      have hhash : geomHash msf = geomHash m₂ := (firstSurvivor_props hfs).2
      have hfsself : firstSurvivor s s.meshes (geomHash msf) = some msf := by
        rw [hhash]
        exact hfs
      have hmsf' : msf ∈ (remove_duplicate_meshes s).meshes :=
        mem_run2_meshes hwf (firstSurvivor_mem hfs)
          (survivor_notin_queue hwf hfsself)
      rw [hval, objRedirect]
      have hfind' : (remove_duplicate_meshes s).meshes.find?
          (fun x => decide (x.id = msf.id)) = some msf :=
        find_self hwf'.1 hmsf'
      rw [hfind']
      show (if 0 < meshUsers (remove_duplicate_meshes s).objects msf then
        match firstSurvivor (remove_duplicate_meshes s)
            (remove_duplicate_meshes s).meshes (geomHash msf) with
        | some msrc => msrc.id
        | none => msf.id
        else msf.id) = msf.id
      rw [if_pos (users2_pos_of_survivor hwf hfsself), fs_run2 hwf hfsself]
    · have hval : objRedirect s s.meshes d = d := by
        rw [objRedirect, hfind]
        show (if 0 < meshUsers s.objects m₂ then
          match firstSurvivor s s.meshes (geomHash m₂) with
          | some msrc => msrc.id
          | none => d
          else d) = d
        rw [if_neg hu₂]
      rw [hval]
      have husers0 : meshUsers s.objects m₂ = 0 := by omega
      have hnq : m₂.name ∉ meshQueue s := by
        intro hmem
        exact hu₂ (dupQueuedB_elim (queued_of_name_mem hwf hm₂ hmem)).1
      have hm₂' : m₂ ∈ (remove_duplicate_meshes s).meshes :=
        mem_run2_meshes hwf hm₂ hnq
      rw [objRedirect]
      have hfind' : (remove_duplicate_meshes s).meshes.find?
          (fun x => decide (x.id = d)) = some m₂ := by
        rw [← hm₂d]
        exact find_self hwf'.1 hm₂'
      rw [hfind']
      show (if 0 < meshUsers (remove_duplicate_meshes s).objects m₂ then
        match firstSurvivor (remove_duplicate_meshes s)
            (remove_duplicate_meshes s).meshes (geomHash m₂) with
        | some msrc => msrc.id
        | none => d
        else d) = d
      rw [if_neg (by rw [users2_zero hwf hm₂ husers0]; omega)]

theorem dupQueuedB_intro {s : MeshScene} {A : List Mesh} {m : Mesh}
    (h1 : 0 < meshUsers s.objects m)
    (h2 : firstSurvivor s A (geomHash m) ≠ some m) (h3 : m.fakeUsers = 0) :
    dupQueuedB s A m = true := by
  rw [dupQueuedB]
  simp [h1, h2, h3]

theorem meshQueue_run2 (s : MeshScene) (hwf : MeshSceneWF s) :
    meshQueue (remove_duplicate_meshes s) = [] := by
  have hmeshes : (remove_duplicate_meshes s).meshes =
      s.meshes.filter (fun m => decide (m.name ∉ meshQueue s)) := by
    rw [remove_duplicate_meshes_char s hwf]
  rw [meshQueue]
  have hfilter : (remove_duplicate_meshes s).meshes.filter
      (dupQueuedB (remove_duplicate_meshes s)
        (remove_duplicate_meshes s).meshes) = [] := by
    rw [List.filter_eq_nil]
    intro m hm hq2
    obtain ⟨hq2u, hq2f, hq2fake⟩ := dupQueuedB_elim hq2
    have hms : m ∈ s.meshes := by
      rw [hmeshes] at hm
      exact (List.mem_filter.mp hm).1
    have hnq : m.name ∉ meshQueue s := by
      rw [hmeshes] at hm
      simpa using (List.mem_filter.mp hm).2
    by_cases hu : meshUsers s.objects m = 0
    · rw [users2_zero hwf hms hu] at hq2u
      omega
    · have hupos : 0 < meshUsers s.objects m := by omega
      rcases firstSurvivor_self hms hupos with ⟨msf, hfs⟩
      by_cases hmm : msf = m
      · subst hmm
        exact hq2f (fs_run2 hwf hfs)
      · have hq1 : dupQueuedB s s.meshes m = true := by
          refine dupQueuedB_intro (by omega) ?_ hq2fake
          rw [hfs]
          intro hh
          exact hmm (Option.some.inj hh)
        exact hnq (List.mem_map.mpr
          ⟨m, List.mem_filter.mpr ⟨hms, hq1⟩, rfl⟩)
  rw [hfilter]
  rfl

/-- Running the mesh pass a second time changes nothing. -/
theorem mesh_pass_idempotent (s : MeshScene) (hwf : MeshSceneWF s) :
    remove_duplicate_meshes (remove_duplicate_meshes s) =
      remove_duplicate_meshes s := by
  have hwf' := mesh_wf_run2 s hwf
  have hobjs : (remove_duplicate_meshes s).objects =
      s.objects.map (fun o => MObj.mk o.id (objRedirect s s.meshes o.data)) := by
    rw [remove_duplicate_meshes_char s hwf]
  rw [remove_duplicate_meshes_char (remove_duplicate_meshes s) hwf']
  rw [meshQueue_run2 s hwf]
  have h1 : (remove_duplicate_meshes s).meshes.filter
      (fun m => decide (m.name ∉ ([] : List String))) =
      (remove_duplicate_meshes s).meshes :=
    List.filter_eq_self.mpr (by intro m _; simp)
  have h2 : (remove_duplicate_meshes s).objects.map
      (fun o => MObj.mk o.id (objRedirect (remove_duplicate_meshes s)
        (remove_duplicate_meshes s).meshes o.data)) =
      (remove_duplicate_meshes s).objects := by
    rw [hobjs, List.map_map]
    refine map_ext _ _ _ fun o => ?_
    show MObj.mk o.id (objRedirect (remove_duplicate_meshes s)
      (remove_duplicate_meshes s).meshes (objRedirect s s.meshes o.data)) =
      MObj.mk o.id (objRedirect s s.meshes o.data)
    exact congrArg (MObj.mk o.id) (redirect_run2 s hwf o.data)
  rw [h1, h2]

/-! ## Images and scene-wide materials: texture_utils.py and
material_utils.remove_duplicate_materials

The bpy collections iterated here are renamed during the passes, so
iteration is modelled over a snapshot taken in the host's name-sorted
order, with every lookup against the live state. -/

/-- A shader node: its type tag and image reference. -/
structure TexNode where
  isTexImage : Bool
  image : Option Nat
deriving DecidableEq

/-- A material datablock: identity, name, the use_nodes flag, the node
tree (absent when nodes were never enabled) and users not coming from
slots. -/
structure TMat where
  id : Nat
  name : String
  useNodes : Bool
  nodeTree : Option (List TexNode)
  fakeUsers : Nat
deriving DecidableEq

/-- image.source values the passes distinguish. -/
inductive ImgSource
  | file
  | generated
  | other
deriving DecidableEq

/-- An image datablock: identity, name, packed flag, source, pixel
buffer, filepath and users not coming from texture nodes. -/
structure TImage where
  id : Nat
  name : String
  packed : Bool
  source : ImgSource
  pixels : List Nat
  filepath : String
  fakeUsers : Nat
deriving DecidableEq

/-- A scene object as read by the materials pass: its type tag and its
material slots. -/
structure TObj where
  id : Nat
  isMesh : Bool
  slots : List (Option Nat)
deriving DecidableEq

/-- The scene as read by the image and materials passes. -/
structure TScene where
  images : List TImage
  materials : List TMat
  objects : List TObj
deriving DecidableEq

/-- Byte-wise lexicographic order on character lists, the order the host
sorts datablock names by. -/
def charListLe : List Char → List Char → Bool
  | [], _ => true
  | _ :: _, [] => false
  | a :: as, b :: bs =>
    if a.toNat < b.toNat then true
    else if b.toNat < a.toNat then false
    else charListLe as bs

/-- Name order on strings. -/
def strLeN (a b : String) : Bool := charListLe a.toList b.toList

/-- Python str.strip: drop leading and trailing whitespace. -/
def isSpaceC (c : Char) : Bool :=
  c = ' ' ∨ c = '\t' ∨ c = '\n' ∨ c = '\r'

/-- Python str.strip on a string. -/
def strTrim (s : String) : String :=
  String.mk (((s.toList.dropWhile isSpaceC).reverse.dropWhile isSpaceC).reverse)

/-- Python str.lower. -/
def strLower (s : String) : String := String.mk (s.toList.map Char.toLower)

/-- Python str.replace of a single space by the empty string: drop every
space. -/
def stripSpaces (s : String) : String :=
  String.mk (s.toList.filter fun c => decide (c ≠ ' '))

/-- Host collection order for images: sorted by name. -/
def sortByNameI (l : List TImage) : List TImage :=
  l.insertionSort fun a b => strLeN a.name b.name

/-- Host collection order for materials: sorted by name. -/
def sortByNameM (l : List TMat) : List TMat :=
  l.insertionSort fun a b => strLeN a.name b.name

/-- image.users: every texture-node reference plus the other users. -/
def imageUsers (s : TScene) (img : TImage) : Nat :=
  (s.materials.map fun mat =>
    (mat.nodeTree.getD []).countP fun n => decide (n.image = some img.id)).sum +
    img.fakeUsers

/-- material.users: every slot reference plus the other users. -/
def matUsers (s : TScene) (mat : TMat) : Nat :=
  (s.objects.map fun o =>
    o.slots.countP fun sl => decide (sl = some mat.id)).sum + mat.fakeUsers

/-- texture_utils.get_image_hash: the md5 digest of the pixel buffer,
modelled injectively by the buffer itself; None when there are no
pixels. -/
def get_image_hash (img : TImage) : Option (List Nat) :=
  if img.pixels = [] then none else some img.pixels

/-- Host behaviour when a datablock is renamed to a name another block
holds: the first free .001-style numeric suffix is appended. -/
def pad3 (k : Nat) : String :=
  if k < 10 then "00" ++ toString k
  else if k < 100 then "0" ++ toString k
  else toString k

/-- The name the host stores when the given name is requested while the
listed names are taken by other blocks. -/
def assignUniqueName (taken : List String) (desired : String) : String :=
  if desired ∉ taken then desired
  else
    match (List.range (taken.length + 1)).find? (fun k =>
      decide ((desired ++ "." ++ pad3 (k + 1)) ∉ taken)) with
    | some k => desired ++ "." ++ pad3 (k + 1)
    | none => desired

/-- texture_utils.rename_image_paths (lines 212-228): every packed image
has its filepath replaced by its current name; unpacked images are
skipped. -/
def rename_image_paths (s : TScene) : TScene :=
  { s with images := s.images.map fun i =>
      if i.packed then { i with filepath := i.name } else i }

/-- Deleting one queued image (texture_utils lines 78-85 and 196-205):
the block is removed only when its user count, read at that moment, is
zero. -/
def imageDeleteStep (s : TScene) (iid : Nat) : TScene :=
  match s.images.find? (fun i => decide (i.id = iid)) with
  | none => s
  | some img =>
    if imageUsers s img = 0 then
      { s with images := s.images.eraseP (fun i => decide (i.id = iid)) }
    else s

/-- Key normalisation for mapping entries (texture_utils line 29): strip,
remove spaces, lower-case. -/
def normKey (str : String) : String :=
  strLower (stripSpaces (strTrim str))

/-- Normalisation applied to a live image name (line 43): remove spaces
and lower-case. -/
def normName (str : String) : String :=
  strLower (stripSpaces str)

/-- Parsing one line of texture_map.txt (lines 21-30): strip the line,
skip it when empty or without a comma, otherwise split at the first
comma. Entries are prepended so that a later line shadows an earlier one
on lookup, matching dict overwrite. -/
def parseMapLine (acc : List (String × String)) (line : String) :
    List (String × String) :=
  let l := strTrim line
  if l = "" ∨ ',' ∉ l.toList then acc
  else
    let newName := String.mk (l.toList.takeWhile fun c => decide (c ≠ ','))
    let rest := String.mk ((l.toList.dropWhile fun c => decide (c ≠ ',')).drop 1)
    (normKey rest, strTrim newName) :: acc

/-- The whole mapping file. -/
def parseImageMap (lines : List String) : List (String × String) :=
  lines.foldl parseMapLine []

/-- One image of the first remap pass (texture_utils lines 39-75): when
the normalised current name has a mapping, either consolidate onto an
existing distinct image with the desired name (repointing every texture
node and queueing the duplicate) or rename the image. -/
def remapStep (imap : List (String × String)) (st : TScene × List Nat)
    (iid : Nat) : TScene × List Nat :=
  match st.1.images.find? (fun i => decide (i.id = iid)) with
  | none => st
  | some img =>
    match alookup imap (normName img.name) with
    | none => st
    | some desired =>
      match st.1.images.find? (fun i => decide (i.name = desired)) with
      | some target =>
        if target.id = img.id then st
        else
          ({ st.1 with materials := st.1.materials.map fun mat =>
              match mat.nodeTree with
              | some nodes =>
                { mat with nodeTree := some (nodes.map fun n =>
                    if n.isTexImage = true ∧ n.image = some img.id then
                      { n with image := some target.id }
                    else n) }
              | none => mat },
            st.2 ++ [img.id])
      | none =>
        ({ st.1 with images := st.1.images.map fun i =>
            if i.id = img.id then { i with name := desired } else i },
          st.2)

/-- texture_utils.remap_textures (lines 9-87), for a successfully read
mapping file with the given lines. -/
def remap_textures (lines : List String) (s : TScene) : TScene :=
  let r := ((sortByNameI s.images).map fun i => i.id).foldl
    (remapStep (parseImageMap lines)) (s, [])
  rename_image_paths (r.2.foldl imageDeleteStep r.1)

/-- The suffix test of clean_image_names (line 105): a 2-4 character
alphanumeric extension preceded by a dot, followed by a dot and three
digits, at the end of the name. -/
def cleanPattern (name : String) : Bool :=
  match name.toList.reverse with
  | d1 :: d2 :: d3 :: '.' :: rest =>
    d1.isDigit && d2.isDigit && d3.isDigit &&
    (match rest with
     | a :: b :: more =>
       a.isAlphanum && b.isAlphanum &&
       (match more with
        | '.' :: _ => true
        | c :: more2 =>
          c.isAlphanum &&
          (match more2 with
           | '.' :: _ => true
           | e :: more3 =>
             e.isAlphanum &&
             (match more3 with
              | '.' :: _ => true
              | _ => false)
           | [] => false)
        | [] => false)
     | _ => false)
  | _ => false

/-- One image of clean_image_names (lines 96-121): skip external and
generated images; when the name carries a numeric disambiguation suffix,
drop the suffix (four characters) and rename, the host resolving any
collision. -/
def cleanStep (s : TScene) (iid : Nat) : TScene :=
  match s.images.find? (fun i => decide (i.id = iid)) with
  | none => s
  | some img =>
    if (img.packed = false ∧ img.source = ImgSource.file) ∨
        img.source = ImgSource.generated then s
    else if cleanPattern img.name then
      let cleaned := img.name.dropRight 4
      let others := (s.images.filter (fun i2 => decide (i2.id ≠ iid))).map
        fun i2 => i2.name
      if cleaned ≠ img.name then
        { s with images := s.images.map fun i =>
            if i.id = iid then { i with name := assignUniqueName others cleaned }
            else i }
      else s
    else s

/-- texture_utils.clean_image_names (lines 89-127). -/
def clean_image_names (s : TScene) : TScene :=
  ((sortByNameI s.images).map fun i => i.id).foldl cleanStep s

/-- The images the duplicate-image pass hashes (lines 147-161): packed or
non-file sources, not generated, with pixel data. -/
def eligibleImages (s : TScene) : List TImage :=
  (sortByNameI s.images).filter fun img =>
    !(decide (img.packed = false) && decide (img.source = ImgSource.file)) &&
    !(decide (img.source = ImgSource.generated)) &&
    !(decide (img.pixels = []))

/-- Appending an image to its hash group, first-seen group order
preserved (defaultdict of lists). -/
def ginsert (groups : List (List Nat × List TImage)) (img : TImage) :
    List (List Nat × List TImage) :=
  if (alookup groups img.pixels).isSome then
    groups.map fun e => if e.1 = img.pixels then (e.1, e.2 ++ [img]) else e
  else groups ++ [(img.pixels, [img])]

/-- The hash groups of the duplicate-image pass. -/
def imageGroups (s : TScene) : List (List Nat × List TImage) :=
  (eligibleImages s).foldl ginsert []

/-- Processing one hash group (lines 168-187): for a group with more
than one member, every texture node referencing a non-head member is
repointed to the head and the non-heads are queued for deletion. -/
def relinkGroup (st : List TMat × List Nat) (e : List Nat × List TImage) :
    List TMat × List Nat :=
  if 1 < e.2.length then
    match e.2 with
    | [] => st
    | orig :: dups =>
      dups.foldl (fun st2 dup =>
        (st2.1.map fun mat =>
          if mat.useNodes then
            { mat with nodeTree := mat.nodeTree.map fun nodes =>
                nodes.map fun n =>
                  if n.isTexImage = true ∧ n.image = some dup.id then
                    { n with image := some orig.id }
                  else n }
          else mat,
          st2.2 ++ [dup.id])) st
  else st

/-- texture_utils.remove_duplicate_images (lines 137-210): hash and
group, return unchanged when no group has two members, otherwise relink,
delete safely, clean names and rewrite packed filepaths. -/
def remove_duplicate_images (s : TScene) : TScene :=
  if (imageGroups s).any (fun e => decide (1 < e.2.length)) then
    rename_image_paths (clean_image_names
      (((imageGroups s).foldl relinkGroup (s.materials, [])).2.foldl
        imageDeleteStep
        { s with
          materials := ((imageGroups s).foldl relinkGroup (s.materials, [])).1 }))
  else s

/-- The materials linked to an image (material_utils lines 116-121): the
node-using materials, in collection (name) order, with a TEX_IMAGE node
referencing the image. -/
def linkedMaterials (mats : List TMat) (iid : Nat) : List TMat :=
  (sortByNameM mats).filter fun mat =>
    mat.useNodes && (mat.nodeTree.getD []).any fun n =>
      n.isTexImage && decide (n.image = some iid)

/-- Phase 1 of remove_duplicate_materials for one image (lines 111-150):
when several materials link the image, mesh objects' slots holding a
non-first one are repointed to the first and the others are queued; the
first linked material is recorded under the image name. Only the
objects, the queue and the record change, so the material list the next
image reads is unchanged. -/
def matPhase1Step (mats : List TMat)
    (st : List TObj × List Nat × List (String × Nat)) (img : TImage) :
    List TObj × List Nat × List (String × Nat) :=
  match linkedMaterials mats img.id with
  | [] => st
  | first :: rest =>
    (rest.foldl (fun objs dup =>
      objs.map fun o =>
        if o.isMesh then
          { o with slots := o.slots.map fun sl =>
              if sl = some dup.id then some first.id else sl }
        else o) st.1,
      st.2.1 ++ rest.map (fun m => m.id),
      st.2.2 ++ [(img.name, first.id)])

/-- Phase 2 for one queued material (lines 154-159): delete only when
the user count read at that moment is zero. -/
def matDeleteStep (s : TScene) (mid : Nat) : TScene :=
  match s.materials.find? (fun m => decide (m.id = mid)) with
  | none => s
  | some mat =>
    if matUsers s mat = 0 then
      { s with materials := s.materials.eraseP (fun m => decide (m.id = mid)) }
    else s

/-- Phase 3 for one recorded image name (lines 163-185): when the base
name without extension has the exact shape T_digits, the recorded
material is renamed to M_digits, the host resolving collisions; any
other shape, or a vanished material, is skipped. -/
def splitextBase (name : String) : String :=
  let cs := name.toList
  match cs.reverse.findIdx? (fun c => decide (c = '.')) with
  | none => name
  | some j =>
    let dotpos := cs.length - 1 - j
    if (cs.take dotpos).any (fun c => decide (c ≠ '.')) then
      String.mk (cs.take dotpos)
    else name

/-- base.split with one underscore split (line 170); None models the
ValueError path when no underscore exists. -/
def splitUnder (str : String) : Option (String × String) :=
  let cs := str.toList
  match cs.findIdx? (fun c => decide (c = '_')) with
  | none => none
  | some i => some (String.mk (cs.take i), String.mk (cs.drop (i + 1)))

/-- One rename of phase 3. -/
def matPhase3Step (s : TScene) (entry : String × Nat) : TScene :=
  match splitUnder (splitextBase entry.1) with
  | none => s
  | some pn =>
    if pn.1 = "T" ∧ pn.2 ≠ "" ∧ pn.2.toList.all Char.isDigit then
      match s.materials.find? (fun m => decide (m.id = entry.2)) with
      | none => s
      | some mat =>
        if mat.name ≠ "M_" ++ pn.2 then
          let others := (s.materials.filter
            (fun m2 => decide (m2.id ≠ entry.2))).map fun m2 => m2.name
          { s with materials := s.materials.map fun m =>
              if m.id = entry.2 then
                { m with name := assignUniqueName others ("M_" ++ pn.2) }
              else m }
        else s
    else s

/-- Phase 3 over the recorded image names in recording order. -/
def matPhase3 (entries : List (String × Nat)) (s : TScene) : TScene :=
  entries.foldl matPhase3Step s

/-- material_utils.remove_duplicate_materials (lines 95-188): consolidate
materials per image, delete the queued duplicates that lost their users
(the queue deduplicated as by set()), then rename per image. -/
def remove_duplicate_materials (s : TScene) : TScene :=
  matPhase3
    ((sortByNameI s.images).foldl (matPhase1Step s.materials)
      (s.objects, [], [])).2.2
    ((((sortByNameI s.images).foldl (matPhase1Step s.materials)
      (s.objects, [], [])).2.1.dedup).foldl matDeleteStep
      { s with objects := ((sortByNameI s.images).foldl
          (matPhase1Step s.materials) (s.objects, [], [])).1 })

/-! ### Deletion safety and reference integrity of the image pass -/

theorem mem_not_mem_eraseP {α : Type} {p : α → Bool} :
    ∀ {l : List α} {a : α}, a ∈ l → a ∉ l.eraseP p → p a = true := by
  intro l
  induction l with
  | nil => intro a h; cases h
  | cons x l ih =>
    intro a hmem hnot
    by_cases hpx : p x = true
    · rw [List.eraseP_cons_of_pos hpx] at hnot
      rcases List.mem_cons.mp hmem with he | hmem'
      · subst he; exact hpx
      · exact absurd hmem' hnot
    · rw [List.eraseP_cons_of_neg (by simpa using hpx)] at hnot
      rcases List.mem_cons.mp hmem with he | hmem'
      · subst he; exact absurd (List.mem_cons_self a _) hnot
      · exact ih hmem' fun hc => hnot (List.mem_cons_of_mem x hc)

theorem imageDeleteStep_found (s : TScene) (iid : Nat) (i0 : TImage)
    (hf : s.images.find? (fun i => decide (i.id = iid)) = some i0) :
    imageDeleteStep s iid =
      if imageUsers s i0 = 0 then
        { s with images := s.images.eraseP (fun i => decide (i.id = iid)) }
      else s := by
  rw [imageDeleteStep, hf]

theorem image_delete_step_safe {s : TScene}
    (hids : (s.images.map (fun i => i.id)).Nodup) (iid : Nat) :
    ∀ img ∈ s.images, img ∉ (imageDeleteStep s iid).images →
      imageUsers s img = 0 := by
  intro img hmem hgone
  cases hf : s.images.find? (fun i => decide (i.id = iid)) with
  | none =>
    rw [imageDeleteStep, hf] at hgone
    exact absurd hmem hgone
  | some i0 =>
    rw [imageDeleteStep_found s iid i0 hf] at hgone
    by_cases hu : imageUsers s i0 = 0
    · rw [if_pos hu] at hgone
      have hp : img.id = iid := by
        simpa using mem_not_mem_eraseP hmem hgone
      have hi0 : i0 ∈ s.images := List.mem_of_find?_eq_some hf
      have hi0id : i0.id = iid := by simpa using List.find?_some hf
      have himg : img = i0 :=
        nodup_map_inj hids hmem hi0 (by rw [hp, hi0id])
      rw [himg]
      exact hu
    · rw [if_neg hu] at hgone
      exact absurd hmem hgone

theorem imageDeleteStep_materials (s : TScene) (iid : Nat) :
    (imageDeleteStep s iid).materials = s.materials := by
  cases hf : s.images.find? (fun i => decide (i.id = iid)) with
  | none => rw [imageDeleteStep, hf]
  | some i0 =>
    rw [imageDeleteStep_found s iid i0 hf]
    by_cases hu : imageUsers s i0 = 0
    · rw [if_pos hu]
    · rw [if_neg hu]

theorem imageDeleteStep_objects (s : TScene) (iid : Nat) :
    (imageDeleteStep s iid).objects = s.objects := by
  cases hf : s.images.find? (fun i => decide (i.id = iid)) with
  | none => rw [imageDeleteStep, hf]
  | some i0 =>
    rw [imageDeleteStep_found s iid i0 hf]
    by_cases hu : imageUsers s i0 = 0
    · rw [if_pos hu]
    · rw [if_neg hu]

theorem imageDeleteStep_images_sublist (s : TScene) (iid : Nat) :
    (imageDeleteStep s iid).images.Sublist s.images := by
  cases hf : s.images.find? (fun i => decide (i.id = iid)) with
  | none =>
    rw [imageDeleteStep, hf]
  | some i0 =>
    rw [imageDeleteStep_found s iid i0 hf]
    by_cases hu : imageUsers s i0 = 0
    · rw [if_pos hu]
      exact List.eraseP_sublist _
    · rw [if_neg hu]

/-- A block that disappears anywhere in the deletion fold had zero users
at the moment it was removed; since the fold never touches materials,
that user count equals the one taken over the starting materials. -/
theorem image_delete_fold_safe :
    ∀ (q : List Nat) (s0 : TScene) (img : TImage),
    (s0.images.map (fun i => i.id)).Nodup → img ∈ s0.images →
    img ∉ (q.foldl imageDeleteStep s0).images → imageUsers s0 img = 0 := by
  intro q
  induction q with
  | nil =>
    intro s0 img _ hmem hgone
    exact absurd hmem hgone
  | cons iid q ih =>
    intro s0 img hids hmem hgone
    by_cases hstep : img ∈ (imageDeleteStep s0 iid).images
    · have hids' : ((imageDeleteStep s0 iid).images.map (fun i => i.id)).Nodup :=
        List.Nodup.sublist ((imageDeleteStep_images_sublist s0 iid).map _) hids
      have := ih (imageDeleteStep s0 iid) img hids' hstep hgone
      rw [imageUsers, imageDeleteStep_materials] at this
      rw [imageUsers]
      exact this
    · exact image_delete_step_safe hids iid img hmem hstep

theorem imageDeleteFold_materials (q : List Nat) (s0 : TScene) :
    (q.foldl imageDeleteStep s0).materials = s0.materials := by
  induction q generalizing s0 with
  | nil => rfl
  | cons iid q ih =>
    show (q.foldl imageDeleteStep (imageDeleteStep s0 iid)).materials = _
    rw [ih, imageDeleteStep_materials]

theorem imageDeleteFold_sublist (q : List Nat) (s0 : TScene) :
    (q.foldl imageDeleteStep s0).images.Sublist s0.images := by
  induction q generalizing s0 with
  | nil => exact List.Sublist.refl _
  | cons iid q ih =>
    exact (ih (imageDeleteStep s0 iid)).trans
      (imageDeleteStep_images_sublist s0 iid)

theorem cleanStep_materials (s : TScene) (iid : Nat) :
    (cleanStep s iid).materials = s.materials := by
  cases hf : s.images.find? (fun i => decide (i.id = iid)) with
  | none => rw [cleanStep, hf]
  | some img =>
    have hstep : cleanStep s iid =
        (if (img.packed = false ∧ img.source = ImgSource.file) ∨
            img.source = ImgSource.generated then s
         else if cleanPattern img.name then
           if img.name.dropRight 4 ≠ img.name then
             { s with images := s.images.map fun i =>
                 if i.id = iid then
                   { i with name := assignUniqueName ((s.images.filter (fun i2 => decide (i2.id ≠ iid))).map fun i2 => i2.name) (img.name.dropRight 4) }
                 else i }
           else s
         else s) := by
      rw [cleanStep, hf]
    rw [hstep]
    by_cases h1 : (img.packed = false ∧ img.source = ImgSource.file) ∨
        img.source = ImgSource.generated
    · rw [if_pos h1]
    · rw [if_neg h1]
      by_cases h2 : cleanPattern img.name = true
      · rw [if_pos h2]
        by_cases h3 : img.name.dropRight 4 ≠ img.name
        · rw [if_pos h3]
        · rw [if_neg h3]
      · rw [if_neg (by simpa using h2)]

theorem clean_image_names_materials (s : TScene) :
    (clean_image_names s).materials = s.materials := by
  rw [clean_image_names]
  generalize ((sortByNameI s.images).map fun i => i.id) = ids
  induction ids generalizing s with
  | nil => rfl
  | cons iid ids ih =>
    show (ids.foldl cleanStep (cleanStep s iid)).materials = _
    rw [ih, cleanStep_materials]

theorem rename_image_paths_materials (s : TScene) :
    (rename_image_paths s).materials = s.materials := rfl

theorem rename_image_paths_ids (s : TScene) :
    (rename_image_paths s).images.map (fun i => i.id) =
      s.images.map (fun i => i.id) := by
  rw [rename_image_paths]
  show (s.images.map _).map _ = _
  rw [List.map_map]
  apply map_ext
  intro i
  by_cases hp : i.packed = true
  · show (if i.packed = true then _ else i).id = i.id
    rw [if_pos hp]
  · show (if i.packed = true then _ else i).id = i.id
    rw [if_neg hp]

theorem cleanStep_ids (s : TScene) (iid : Nat) :
    (cleanStep s iid).images.map (fun i => i.id) =
      s.images.map (fun i => i.id) := by
  cases hf : s.images.find? (fun i => decide (i.id = iid)) with
  | none => rw [cleanStep, hf]
  | some img =>
    have hstep : cleanStep s iid =
        (if (img.packed = false ∧ img.source = ImgSource.file) ∨
            img.source = ImgSource.generated then s
         else if cleanPattern img.name then
           if img.name.dropRight 4 ≠ img.name then
             { s with images := s.images.map fun i =>
                 if i.id = iid then
                   { i with name := assignUniqueName ((s.images.filter (fun i2 => decide (i2.id ≠ iid))).map fun i2 => i2.name) (img.name.dropRight 4) }
                 else i }
           else s
         else s) := by
      rw [cleanStep, hf]
    rw [hstep]
    by_cases h1 : (img.packed = false ∧ img.source = ImgSource.file) ∨
        img.source = ImgSource.generated
    · rw [if_pos h1]
    · rw [if_neg h1]
      by_cases h2 : cleanPattern img.name = true
      · rw [if_pos h2]
        by_cases h3 : img.name.dropRight 4 ≠ img.name
        · rw [if_pos h3]
          show (s.images.map _).map _ = _
          rw [List.map_map]
          apply map_ext
          intro i
          by_cases hi : i.id = iid
          · show (if i.id = iid then _ else i).id = i.id
            rw [if_pos hi]
          · show (if i.id = iid then _ else i).id = i.id
            rw [if_neg hi]
        · rw [if_neg h3]
      · rw [if_neg (by simpa using h2)]

theorem clean_image_names_ids (s : TScene) :
    (clean_image_names s).images.map (fun i => i.id) =
      s.images.map (fun i => i.id) := by
  rw [clean_image_names]
  generalize ((sortByNameI s.images).map fun i => i.id) = ids
  induction ids generalizing s with
  | nil => rfl
  | cons iid ids ih =>
    show ((ids.foldl cleanStep (cleanStep s iid)).images.map _) = _
    rw [ih, cleanStep_ids]

theorem nat_sum_zero {l : List Nat} (h : l.sum = 0) : ∀ x ∈ l, x = 0 := by
  induction l with
  | nil => intro x hx; cases hx
  | cons a l ih =>
    rw [List.sum_cons, Nat.add_eq_zero] at h
    intro x hx
    rcases List.mem_cons.mp hx with he | hm
    · rw [he, h.1]
    · exact ih h.2 x hm

/-- Reference integrity of the image pass: a texture node of a surviving
material never points at an image the pass deleted. -/
theorem image_reference_integrity (s : TScene)
    (hids : (s.images.map (fun i => i.id)).Nodup) :
    ∀ mat ∈ (remove_duplicate_images s).materials,
    ∀ n ∈ mat.nodeTree.getD [], ∀ img ∈ s.images,
      n.image = some img.id →
      img.id ∈ (remove_duplicate_images s).images.map (fun i => i.id) := by
  intro mat hmat n hn img himg hni
  by_cases hdup : (imageGroups s).any (fun e => decide (1 < e.2.length)) = true
  · have hpass : remove_duplicate_images s =
        rename_image_paths (clean_image_names
          (((imageGroups s).foldl relinkGroup (s.materials, [])).2.foldl
            imageDeleteStep
            { s with
              materials := ((imageGroups s).foldl relinkGroup
                (s.materials, [])).1 })) := by
      rw [remove_duplicate_images, if_pos hdup]
    set s1 : TScene := { s with
      materials := ((imageGroups s).foldl relinkGroup (s.materials, [])).1 } with hs1
    set q : List Nat :=
      ((imageGroups s).foldl relinkGroup (s.materials, [])).2 with hq
    set sdel : TScene := q.foldl imageDeleteStep s1 with hsdel
    have hmats : (remove_duplicate_images s).materials = sdel.materials := by
      rw [hpass, rename_image_paths_materials, clean_image_names_materials]
    have hidseq : (remove_duplicate_images s).images.map (fun i => i.id) =
        sdel.images.map (fun i => i.id) := by
      rw [hpass, rename_image_paths_ids, clean_image_names_ids]
    rw [hidseq]
    by_contra hno
    have himg1 : img ∈ s1.images := himg
    have himggone : img ∉ sdel.images := fun hc =>
      hno (List.mem_map_of_mem (fun i => i.id) hc)
    have husers : imageUsers s1 img = 0 :=
      image_delete_fold_safe q s1 img hids himg1 himggone
    rw [imageUsers, Nat.add_eq_zero] at husers
    have hmat1 : mat ∈ s1.materials := by
      rw [hmats] at hmat
      rw [hsdel] at hmat
      rw [imageDeleteFold_materials] at hmat
      exact hmat
    have hcnt : ((mat.nodeTree.getD []).countP fun nn =>
        decide (nn.image = some img.id)) = 0 :=
      nat_sum_zero husers.1 _ (List.mem_map_of_mem _ hmat1)
    have hpos : 0 < (mat.nodeTree.getD []).countP fun nn =>
        decide (nn.image = some img.id) :=
      List.countP_pos.mpr ⟨n, hn, by simpa using hni⟩
    omega
  · have hpass : remove_duplicate_images s = s := by
      rw [remove_duplicate_images, if_neg hdup]
    rw [hpass]
    exact List.mem_map_of_mem _ himg

/-! ### Characterisation of the image hash groups -/

/-- The hash keys in first-seen order, as a defaultdict collects them. -/
def firstSeenKeys (L : List TImage) : List (List Nat) :=
  L.foldl (fun ks i => if i.pixels ∈ ks then ks else ks ++ [i.pixels]) []

theorem firstSeenKeys_fold_mem :
    ∀ (L : List TImage) (ks0 : List (List Nat)) (h : List Nat),
      h ∈ L.foldl (fun ks i => if i.pixels ∈ ks then ks else ks ++ [i.pixels]) ks0 ↔
        h ∈ ks0 ∨ ∃ i ∈ L, i.pixels = h := by
  intro L
  induction L with
  | nil =>
    intro ks0 h
    simp
  | cons x L ih =>
    intro ks0 h
    show h ∈ L.foldl _ (if x.pixels ∈ ks0 then ks0 else ks0 ++ [x.pixels]) ↔ _
    rw [ih]
    by_cases hx : x.pixels ∈ ks0
    · rw [if_pos hx]
      constructor
      · rintro (h1 | h2)
        · exact Or.inl h1
        · exact Or.inr (by rcases h2 with ⟨i, hi, he⟩; exact ⟨i, List.mem_cons_of_mem x hi, he⟩)
      · rintro (h1 | ⟨i, hi, he⟩)
        · exact Or.inl h1
        · rcases List.mem_cons.mp hi with hix | hiL
          · subst hix; exact Or.inl (he ▸ hx)
          · exact Or.inr ⟨i, hiL, he⟩
    · rw [if_neg hx]
      constructor
      · rintro (h1 | h2)
        · rcases List.mem_append.mp h1 with ha | hb
          · exact Or.inl ha
          · have : h = x.pixels := by simpa using hb
            exact Or.inr ⟨x, List.mem_cons_self x L, this.symm⟩
        · exact Or.inr (by rcases h2 with ⟨i, hi, he⟩; exact ⟨i, List.mem_cons_of_mem x hi, he⟩)
      · rintro (h1 | ⟨i, hi, he⟩)
        · exact Or.inl (List.mem_append_left _ h1)
        · rcases List.mem_cons.mp hi with hix | hiL
          · subst hix
            exact Or.inl (List.mem_append_right _ (by simp [he]))
          · exact Or.inr ⟨i, hiL, he⟩

theorem firstSeenKeys_mem (L : List TImage) (h : List Nat) :
    h ∈ firstSeenKeys L ↔ ∃ i ∈ L, i.pixels = h := by
  rw [firstSeenKeys, firstSeenKeys_fold_mem]
  simp

theorem alookup_keys_map (K : List (List Nat))
    (F : List Nat → List TImage) (k : List Nat) :
    alookup (K.map fun h => (h, F h)) k =
      if k ∈ K then some (F k) else none := by
  induction K with
  | nil => simp [alookup]
  | cons h K ih =>
    show (if h = k then some (F h) else alookup (K.map _) k) = _
    by_cases he : h = k
    · rw [if_pos he, he, if_pos (List.mem_cons_self k K)]
    · rw [if_neg he, ih]
      by_cases hk : k ∈ K
      · rw [if_pos hk, if_pos (List.mem_cons_of_mem h hk)]
      · rw [if_neg hk, if_neg (by
          intro hc
          rcases List.mem_cons.mp hc with h1 | h2
          · exact he h1.symm
          · exact hk h2)]

theorem map_ext_mem {α β : Type} {f g : α → β} :
    ∀ {l : List α}, (∀ a ∈ l, f a = g a) → l.map f = l.map g := by
  intro l
  induction l with
  | nil => intro _; rfl
  | cons a l ih =>
    intro h
    rw [List.map_cons, List.map_cons, h a (List.mem_cons_self a l),
      ih fun b hb => h b (List.mem_cons_of_mem a hb)]

theorem imageGroups_fold_char :
    ∀ (L : List TImage),
      L.foldl ginsert [] =
        (firstSeenKeys L).map fun h =>
          (h, L.filter fun i => decide (i.pixels = h)) := by
  intro L
  induction L using List.reverseRecOn with
  | nil => rfl
  | append_singleton A x ih =>
    rw [List.foldl_append, List.foldl_cons, List.foldl_nil, ih]
    have hkeys : firstSeenKeys (A ++ [x]) =
        if x.pixels ∈ firstSeenKeys A then firstSeenKeys A
        else firstSeenKeys A ++ [x.pixels] := by
      rw [firstSeenKeys, List.foldl_append, List.foldl_cons, List.foldl_nil]
      rfl
    rw [ginsert, alookup_keys_map]
    by_cases hx : x.pixels ∈ firstSeenKeys A
    · rw [if_pos hx]
      show ((firstSeenKeys A).map _).map _ = _
      rw [hkeys, if_pos hx, List.map_map]
      apply map_ext
      intro h
      show (if h = x.pixels then ((h, (A.filter fun i => decide (i.pixels = h)) ++ [x]) : List Nat × List TImage) else (h, A.filter fun i => decide (i.pixels = h))) = (h, (A ++ [x]).filter fun i => decide (i.pixels = h))
      rw [List.filter_append]
      by_cases he : h = x.pixels
      · rw [if_pos he]
        have hfx : [x].filter (fun i => decide (i.pixels = h)) = [x] := by
          rw [List.filter_cons, if_pos (by simp [he])]
          rfl
        rw [hfx]
      · rw [if_neg he]
        have hfx : [x].filter (fun i => decide (i.pixels = h)) = [] := by
          rw [List.filter_cons,
            if_neg (by simp only [decide_eq_true_eq]; exact fun hc => he hc.symm)]
          rfl
        rw [hfx, List.append_nil]
    · rw [if_neg hx]
      show ((firstSeenKeys A).map _) ++ [(x.pixels, [x])] = _
      rw [hkeys, if_neg hx, List.map_append]
      have h1 : (firstSeenKeys A).map
          (fun h => ((h, A.filter fun i => decide (i.pixels = h)) : List Nat × List TImage)) =
          (firstSeenKeys A).map
            (fun h => (h, (A ++ [x]).filter fun i => decide (i.pixels = h))) := by
        apply map_ext_mem
        intro h hh
        rw [List.filter_append]
        have hne : ¬ (x.pixels = h) := fun hc => hx (hc ▸ hh)
        have hfx : [x].filter (fun i => decide (i.pixels = h)) = [] := by
          rw [List.filter_cons, if_neg (by simpa using hne)]
          rfl
        rw [hfx, List.append_nil]
      have h2 : ([(x.pixels, [x])] : List (List Nat × List TImage)) =
          [x.pixels].map
            (fun h => (h, (A ++ [x]).filter fun i => decide (i.pixels = h))) := by
        have hA : A.filter (fun i => decide (i.pixels = x.pixels)) = [] := by
          apply List.filter_eq_nil.mpr
          intro i hi
          simp only [decide_eq_true_eq]
          intro hc
          exact hx (firstSeenKeys_mem A x.pixels |>.mpr ⟨i, hi, hc⟩)
        have hfx : [x].filter (fun i => decide (i.pixels = x.pixels)) = [x] := by
          rw [List.filter_cons, if_pos (by simp)]
          rfl
        rw [List.map_cons, List.map_nil, List.filter_append, hA, hfx,
          List.nil_append]
      rw [h1, h2, ← List.map_append]

theorem imageGroups_char (s : TScene) :
    imageGroups s =
      (firstSeenKeys (eligibleImages s)).map fun h =>
        (h, (eligibleImages s).filter fun i => decide (i.pixels = h)) :=
  imageGroups_fold_char (eligibleImages s)

theorem filter_head?_eq_find? {α : Type} (p : α → Bool) :
    ∀ (l : List α), (l.filter p).head? = l.find? p := by
  intro l
  induction l with
  | nil => rfl
  | cons a l ih =>
    rw [List.filter_cons, List.find?_cons]
    by_cases ha : p a = true
    · rw [if_pos ha]
      cases hpa : p a
      · rw [hpa] at ha; cases ha
      · rfl
    · rw [if_neg ha]
      cases hpa : p a
      · exact ih
      · exact absurd hpa ha

/-! ### Concrete texture and material scenes -/

/-- A packed image named after a game texture, linked by the materials
below. -/
def imgT39 : TImage :=
  { id := 1, name := "T_39.png", packed := true, source := ImgSource.other,
    pixels := [7], filepath := "fp", fakeUsers := 0 }

/-- First material linking imgT39. -/
def matA : TMat :=
  { id := 10, name := "A", useNodes := true,
    nodeTree := some [⟨true, some 1⟩], fakeUsers := 0 }

/-- Second material linking imgT39, kept alive by a fake user. -/
def matB : TMat :=
  { id := 11, name := "B", useNodes := true,
    nodeTree := some [⟨true, some 1⟩], fakeUsers := 1 }

/-- A mesh object whose single slot holds matB. -/
def objO : TObj := { id := 20, isMesh := true, slots := [some 11] }

/-- Scene on which the materials pass is not idempotent: the second run
repoints the slot again and renames the other duplicate. -/
def sC4 : TScene :=
  { images := [imgT39], materials := [matA, matB], objects := [objO] }

/-- A material already holding the name the rename phase will want. -/
def matM39 : TMat :=
  { id := 11, name := "M_39", useNodes := false, nodeTree := none,
    fakeUsers := 0 }

/-- Scene where the rename phase collides with an existing name. -/
def sC10 : TScene :=
  { images := [imgT39], materials := [matA, matM39], objects := [] }

/-- Scene where the rename phase is collision-free. -/
def sC10b : TScene :=
  { images := [imgT39], materials := [matA], objects := [] }

/-- A packed image with a filepath differing from its name, alone in its
scene. -/
def imgLone : TImage :=
  { id := 1, name := "A.png", packed := true, source := ImgSource.file,
    pixels := [1], filepath := "old", fakeUsers := 0 }

/-- Scene with no duplicate images at all. -/
def sC9 : TScene := { images := [imgLone], materials := [], objects := [] }

/-- First of two pixel-identical packed images. -/
def imgD1 : TImage :=
  { id := 1, name := "A.png", packed := true, source := ImgSource.other,
    pixels := [5], filepath := "p1", fakeUsers := 0 }

/-- Second of two pixel-identical packed images. -/
def imgD2 : TImage :=
  { id := 2, name := "B.png", packed := true, source := ImgSource.other,
    pixels := [5], filepath := "p2", fakeUsers := 0 }

/-- A material whose texture node references the duplicate imgD2. -/
def matD : TMat :=
  { id := 10, name := "M", useNodes := true,
    nodeTree := some [⟨true, some 2⟩], fakeUsers := 0 }

/-- Scene with a genuine duplicate-image pair. -/
def sC9b : TScene :=
  { images := [imgD1, imgD2], materials := [matD], objects := [] }

/-- A packed image whose normalised name matches the mapping key of the
spec scenario. -/
def imgT39b : TImage :=
  { id := 3, name := "t_39.png", packed := true, source := ImgSource.other,
    pixels := [9], filepath := "q", fakeUsers := 0 }

/-- Scene for the rename branch of the remap pass. -/
def sC8 : TScene := { images := [imgT39b], materials := [], objects := [] }

/-- An image already carrying the desired name of the mapping. -/
def imgM39 : TImage :=
  { id := 4, name := "M_39", packed := true, source := ImgSource.other,
    pixels := [8], filepath := "r", fakeUsers := 0 }

/-- A material whose texture node references the to-be-consolidated
image. -/
def matC8 : TMat :=
  { id := 12, name := "MM", useNodes := true,
    nodeTree := some [⟨true, some 3⟩], fakeUsers := 0 }

/-- Scene for the consolidation branch of the remap pass. -/
def sC8b : TScene :=
  { images := [imgT39b, imgM39], materials := [matC8], objects := [] }

/-- The mapping-file line of the spec scenario. -/
def mapC8 : List String := ["M_39,T_39.png"]

/-! ### The filepath rewrite at the end of both texture passes -/

theorem rename_paths_packed (x : TScene) :
    ∀ i ∈ (rename_image_paths x).images, i.packed = true →
      i.filepath = i.name := by
  intro i hi hp
  rw [rename_image_paths] at hi
  rcases List.mem_map.mp hi with ⟨i0, _, heq⟩
  by_cases hp0 : i0.packed = true
  · have : ({ i0 with filepath := i0.name } : TImage) = i := by
      rw [← heq]
      show _ = (if i0.packed = true then _ else i0)
      rw [if_pos hp0]
    rw [← this]
  · have : i0 = i := by
      rw [← heq]
      show _ = (if i0.packed = true then _ else i0)
      rw [if_neg hp0]
    rw [← this] at hp
    exact absurd hp hp0

theorem rename_paths_unpacked (x : TScene) :
    ∀ i ∈ x.images, i.packed = false → i ∈ (rename_image_paths x).images := by
  intro i hi hp
  rw [rename_image_paths]
  have : i = (if i.packed = true then { i with filepath := i.name } else i) := by
    rw [if_neg (by rw [hp]; exact Bool.false_ne_true)]
  exact this ▸ List.mem_map_of_mem _ hi

theorem remap_textures_eq (lines : List String) (s : TScene) :
    remap_textures lines s =
      rename_image_paths
        (((((sortByNameI s.images).map fun i => i.id).foldl
            (remapStep (parseImageMap lines)) (s, [])).2).foldl
          imageDeleteStep
          ((((sortByNameI s.images).map fun i => i.id).foldl
            (remapStep (parseImageMap lines)) (s, [])).1)) := rfl

/-! ### The remap pass's first loop -/

/-- The first loop of remap_textures (lines 39-75): state after every
image has been visited in collection order. -/
def remapPhase1 (lines : List String) (s : TScene) : TScene × List Nat :=
  ((sortByNameI s.images).map fun i => i.id).foldl
    (remapStep (parseImageMap lines)) (s, [])

theorem remap_textures_phase1 (lines : List String) (s : TScene) :
    remap_textures lines s =
      rename_image_paths ((remapPhase1 lines s).2.foldl imageDeleteStep
        (remapPhase1 lines s).1) := rfl

theorem remapStep_none (imap : List (String × String)) (st : TScene × List Nat)
    (iid : Nat)
    (hf : st.1.images.find? (fun x => decide (x.id = iid)) = none) :
    remapStep imap st iid = st := by
  rw [remapStep, hf]

theorem remapStep_some (imap : List (String × String)) (st : TScene × List Nat)
    (iid : Nat) (i : TImage)
    (hf : st.1.images.find? (fun x => decide (x.id = iid)) = some i) :
    remapStep imap st iid =
      (match alookup imap (normName i.name) with
       | none => st
       | some desired =>
         match st.1.images.find? (fun x => decide (x.name = desired)) with
         | some target =>
           if target.id = i.id then st
           else
             ({ st.1 with materials := st.1.materials.map fun mat =>
                 match mat.nodeTree with
                 | some nodes =>
                   { mat with nodeTree := some (nodes.map fun n =>
                       if n.isTexImage = true ∧ n.image = some i.id then
                         { n with image := some target.id }
                       else n) }
                 | none => mat },
               st.2 ++ [i.id])
         | none =>
           ({ st.1 with images := st.1.images.map fun x =>
               if x.id = i.id then { x with name := desired } else x },
             st.2)) := by
  rw [remapStep, hf]

/-- Images whose live record has no mapping entry are skipped, leaving the
loop state untouched. -/
theorem remapFold_skip (imap : List (String × String)) :
    ∀ (ids : List Nat) (st : TScene × List Nat),
      (∀ iid ∈ ids, ∀ i ∈ st.1.images, i.id = iid →
        alookup imap (normName i.name) = none) →
      ids.foldl (remapStep imap) st = st := by
  intro ids
  induction ids with
  | nil => intro st _; rfl
  | cons iid ids ih =>
    intro st hnone
    have hstep : remapStep imap st iid = st := by
      cases hf : st.1.images.find? (fun x => decide (x.id = iid)) with
      | none => exact remapStep_none imap st iid hf
      | some i =>
        have hi : i ∈ st.1.images := List.mem_of_find?_eq_some hf
        have hiid : i.id = iid := by simpa using List.find?_some hf
        have hl : alookup imap (normName i.name) = none :=
          hnone iid (List.mem_cons_self iid ids) i hi hiid
        rw [remapStep_some imap st iid i hf, hl]
    show ids.foldl (remapStep imap) (remapStep imap st iid) = st
    rw [hstep]
    exact ih st fun j hj i hi hid =>
      hnone j (List.mem_cons_of_mem iid hj) i hi hid

theorem remapStep_rename (imap : List (String × String))
    (st : TScene × List Nat) (iid : Nat) (i : TImage) (desired : String)
    (hf : st.1.images.find? (fun x => decide (x.id = iid)) = some i)
    (hl : alookup imap (normName i.name) = some desired)
    (hfn : st.1.images.find? (fun x => decide (x.name = desired)) = none) :
    remapStep imap st iid =
      ({ st.1 with images := st.1.images.map fun (x : TImage) =>
          if x.id = i.id then { x with name := desired } else x },
        st.2) := by
  rw [remapStep_some imap st iid i hf, hl]
  show (match st.1.images.find? (fun x => decide (x.name = desired)) with
        | some target =>
          if target.id = i.id then st
          else
            ({ st.1 with materials := st.1.materials.map fun (mat : TMat) =>
                match mat.nodeTree with
                | some nodes =>
                  { mat with nodeTree := some (nodes.map fun (n : TexNode) =>
                      if n.isTexImage = true ∧ n.image = some i.id then
                        { n with image := some target.id }
                      else n) }
                | none => mat },
              st.2 ++ [i.id])
        | none =>
          ({ st.1 with images := st.1.images.map fun (x : TImage) =>
              if x.id = i.id then { x with name := desired } else x },
            st.2)) = _
  rw [hfn]

theorem remapStep_consolidate (imap : List (String × String))
    (st : TScene × List Nat) (iid : Nat) (i : TImage) (desired : String)
    (target : TImage)
    (hf : st.1.images.find? (fun x => decide (x.id = iid)) = some i)
    (hl : alookup imap (normName i.name) = some desired)
    (hfn : st.1.images.find? (fun x => decide (x.name = desired)) = some target)
    (htid : ¬ (target.id = i.id)) :
    remapStep imap st iid =
      ({ st.1 with materials := st.1.materials.map fun mat =>
          match mat.nodeTree with
          | some nodes =>
            { mat with nodeTree := some (nodes.map fun (n : TexNode) =>
                if n.isTexImage = true ∧ n.image = some i.id then
                  { n with image := some target.id }
                else n) }
          | none => mat },
        st.2 ++ [i.id]) := by
  rw [remapStep_some imap st iid i hf, hl]
  show (match st.1.images.find? (fun x => decide (x.name = desired)) with
        | some target =>
          if target.id = i.id then st
          else
            ({ st.1 with materials := st.1.materials.map fun (mat : TMat) =>
                match mat.nodeTree with
                | some nodes =>
                  { mat with nodeTree := some (nodes.map fun (n : TexNode) =>
                      if n.isTexImage = true ∧ n.image = some i.id then
                        { n with image := some target.id }
                      else n) }
                | none => mat },
              st.2 ++ [i.id])
        | none =>
          ({ st.1 with images := st.1.images.map fun (x : TImage) =>
              if x.id = i.id then { x with name := desired } else x },
            st.2)) = _
  rw [hfn]
  show (if target.id = i.id then st
        else
          ({ st.1 with materials := st.1.materials.map fun (mat : TMat) =>
              match mat.nodeTree with
              | some nodes =>
                { mat with nodeTree := some (nodes.map fun (n : TexNode) =>
                    if n.isTexImage = true ∧ n.image = some i.id then
                      { n with image := some target.id }
                    else n) }
              | none => mat },
            st.2 ++ [i.id])) = _
  rw [if_neg htid]

/-- C8: in the remap pass, an image whose normalised live name matches a
mapping entry while no other image does is renamed to the desired name
when no image carries it, and otherwise — when a distinct image carries
the desired name — every texture node referencing the image is repointed
to that target and the image is queued for safe deletion with its name
untouched. -/
theorem remap_mapping_rule (lines : List String) (s : TScene)
    (hids : (s.images.map (fun i => i.id)).Nodup)
    (img : TImage) (himg : img ∈ s.images) (desired : String)
    (hlook : alookup (parseImageMap lines) (normName img.name) = some desired)
    (hothers : ∀ i ∈ s.images, i.id ≠ img.id →
      alookup (parseImageMap lines) (normName i.name) = none) :
    (s.images.find? (fun x => decide (x.name = desired)) = none →
      remapPhase1 lines s =
        ({ s with images := s.images.map fun x =>
            if x.id = img.id then { x with name := desired } else x }, [])) ∧
    (∀ target,
      s.images.find? (fun x => decide (x.name = desired)) = some target →
      ¬ (target.id = img.id) →
      remapPhase1 lines s =
        ({ s with materials := s.materials.map fun mat =>
            match mat.nodeTree with
            | some nodes =>
              { mat with nodeTree := some (nodes.map fun n =>
                  if n.isTexImage = true ∧ n.image = some img.id then
                    { n with image := some target.id }
                  else n) }
            | none => mat },
          [img.id])) := by
  have hperm : (sortByNameI s.images).Perm s.images :=
    List.perm_insertionSort _ _
  have hLperm : ((sortByNameI s.images).map fun i => i.id).Perm
      (s.images.map fun i => i.id) := hperm.map _
  have hnd : ((sortByNameI s.images).map fun i => i.id).Nodup :=
    hLperm.nodup_iff.mpr hids
  have hmemL : img.id ∈ ((sortByNameI s.images).map fun i => i.id) :=
    hLperm.mem_iff.mpr (List.mem_map_of_mem _ himg)
  rcases List.append_of_mem hmemL with ⟨L1, L2, hL⟩
  rw [hL] at hnd
  rw [List.nodup_append] at hnd
  have hnotL1 : img.id ∉ L1 := fun hc =>
    hnd.2.2 hc (List.mem_cons_self _ _)
  have hnotL2 : img.id ∉ L2 := (List.nodup_cons.mp hnd.2.1).1
  have hfold1 : L1.foldl (remapStep (parseImageMap lines)) (s, []) =
      (s, []) := by
    apply remapFold_skip
    intro iid hiid i hi hid
    exact hothers i hi fun hc => hnotL1 ((hc.symm.trans hid) ▸ hiid)
  have hfind : s.images.find? (fun x => decide (x.id = img.id)) = some img :=
    find_self hids himg
  have hphase : remapPhase1 lines s =
      L2.foldl (remapStep (parseImageMap lines))
        (remapStep (parseImageMap lines) (s, []) img.id) := by
    rw [remapPhase1, hL, List.foldl_append, List.foldl_cons, hfold1]
  constructor
  · intro hfn
    have hstep := remapStep_rename (parseImageMap lines) (s, []) img.id img
      desired hfind hlook hfn
    have hskip2 : L2.foldl (remapStep (parseImageMap lines))
        ({ (s, ([] : List Nat)).1 with
            images := (s, ([] : List Nat)).1.images.map fun x =>
              if x.id = img.id then { x with name := desired } else x },
          (s, ([] : List Nat)).2) =
        ({ (s, ([] : List Nat)).1 with
            images := (s, ([] : List Nat)).1.images.map fun x =>
              if x.id = img.id then { x with name := desired } else x },
          (s, ([] : List Nat)).2) := by
      apply remapFold_skip
      intro iid hiid i hi hid
      have hi' : i ∈ s.images.map fun x =>
          if x.id = img.id then { x with name := desired } else x := hi
      rcases List.mem_map.mp hi' with ⟨i0, hi0, heq⟩
      by_cases h0 : i0.id = img.id
      · exfalso
        have heq' : ({ i0 with name := desired } : TImage) = i := by
          rw [← heq, if_pos h0]
        have hiid' : i.id = i0.id := by rw [← heq']
        exact hnotL2 (by
          have : img.id = iid := by rw [← h0, ← hiid', hid]
          exact this ▸ hiid)
      · have heq' : i0 = i := by rw [← heq, if_neg h0]
        rw [← heq']
        exact hothers i0 hi0 h0
    rw [hphase, hstep, hskip2]
  · intro target hfn htid
    have hstep := remapStep_consolidate (parseImageMap lines) (s, [])
      img.id img desired target hfind hlook hfn htid
    have hskip2 : L2.foldl (remapStep (parseImageMap lines))
        ({ (s, ([] : List Nat)).1 with
            materials := (s, ([] : List Nat)).1.materials.map fun mat =>
              match mat.nodeTree with
              | some nodes =>
                { mat with nodeTree := some (nodes.map fun n =>
                    if n.isTexImage = true ∧ n.image = some img.id then
                      { n with image := some target.id }
                    else n) }
              | none => mat },
          (s, ([] : List Nat)).2 ++ [img.id]) =
        ({ (s, ([] : List Nat)).1 with
            materials := (s, ([] : List Nat)).1.materials.map fun mat =>
              match mat.nodeTree with
              | some nodes =>
                { mat with nodeTree := some (nodes.map fun n =>
                    if n.isTexImage = true ∧ n.image = some img.id then
                      { n with image := some target.id }
                    else n) }
              | none => mat },
          (s, ([] : List Nat)).2 ++ [img.id]) := by
      apply remapFold_skip
      intro iid hiid i hi hid
      have hi' : i ∈ s.images := hi
      exact hothers i hi' fun hc => hnotL2 ((hc.symm.trans hid) ▸ hiid)
    rw [hphase, hstep, hskip2]
    rfl

/-! ### The rename phase of the materials pass -/

/-- The記録 of phase 1: the (image name, first linked material id) pairs
handed to phase 3. -/
def matImap (s : TScene) : List (String × Nat) :=
  ((sortByNameI s.images).foldl (matPhase1Step s.materials)
    (s.objects, [], [])).2.2

theorem matPhase1Fold_imap (mats : List TMat) :
    ∀ (L : List TImage) (st : List TObj × List Nat × List (String × Nat)),
      (L.foldl (matPhase1Step mats) st).2.2 =
        st.2.2 ++ L.filterMap fun img =>
          (linkedMaterials mats img.id).head?.map fun m => (img.name, m.id) := by
  intro L
  induction L with
  | nil =>
    intro st
    rw [List.filterMap_nil, List.append_nil]
    rfl
  | cons x L ih =>
    intro st
    show (L.foldl (matPhase1Step mats) (matPhase1Step mats st x)).2.2 = _
    rw [ih]
    cases hl : linkedMaterials mats x.id with
    | nil =>
      have hstep : matPhase1Step mats st x = st := by
        rw [matPhase1Step, hl]
      rw [hstep, List.filterMap_cons, hl]
      rfl
    | cons first rest =>
      have hstep : (matPhase1Step mats st x).2.2 =
          st.2.2 ++ [(x.name, first.id)] := by
        rw [matPhase1Step, hl]
      rw [hstep, List.filterMap_cons, hl, List.append_assoc]
      rfl

theorem matImap_char (s : TScene) :
    matImap s = (sortByNameI s.images).filterMap fun img =>
      (linkedMaterials s.materials img.id).head?.map fun m =>
        (img.name, m.id) := by
  rw [matImap, matPhase1Fold_imap]
  rfl

theorem matPhase3Step_noUnderscore (s : TScene) (entry : String × Nat)
    (hsplit : splitUnder (splitextBase entry.1) = none) :
    matPhase3Step s entry = s := by
  rw [matPhase3Step, hsplit]

theorem matPhase3Step_notT (s : TScene) (entry : String × Nat)
    (pn : String × String)
    (hsplit : splitUnder (splitextBase entry.1) = some pn)
    (hc : ¬ (pn.1 = "T" ∧ pn.2 ≠ "" ∧ pn.2.toList.all Char.isDigit)) :
    matPhase3Step s entry = s := by
  rw [matPhase3Step, hsplit]
  show (if pn.1 = "T" ∧ pn.2 ≠ "" ∧ pn.2.toList.all Char.isDigit then
      (match s.materials.find? (fun m => decide (m.id = entry.2)) with
       | none => s
       | some mat =>
         if mat.name ≠ "M_" ++ pn.2 then
           { s with materials := s.materials.map fun m =>
               if m.id = entry.2 then
                 { m with name := assignUniqueName ((s.materials.filter (fun m2 => decide (m2.id ≠ entry.2))).map fun m2 => m2.name) ("M_" ++ pn.2) }
               else m }
         else s)
    else s) = s
  rw [if_neg hc]

theorem matPhase3Step_rename (s : TScene) (entry : String × Nat)
    (num : String) (mat : TMat)
    (hsplit : splitUnder (splitextBase entry.1) = some ("T", num))
    (hnum : num ≠ "" ∧ num.toList.all Char.isDigit = true)
    (hfind : s.materials.find? (fun m => decide (m.id = entry.2)) = some mat)
    (hname : mat.name ≠ "M_" ++ num)
    (hfree : ∀ m2 ∈ s.materials, m2.id ≠ entry.2 → m2.name ≠ "M_" ++ num) :
    (matPhase3Step s entry).materials = s.materials.map fun m =>
      if m.id = entry.2 then { m with name := "M_" ++ num } else m := by
  rw [matPhase3Step, hsplit]
  show ((if ("T", num).1 = "T" ∧ ("T", num).2 ≠ "" ∧
        ("T", num).2.toList.all Char.isDigit then
      (match s.materials.find? (fun m => decide (m.id = entry.2)) with
       | none => s
       | some mat =>
         if mat.name ≠ "M_" ++ num then
           { s with materials := s.materials.map fun m =>
               if m.id = entry.2 then
                 { m with name := assignUniqueName ((s.materials.filter (fun m2 => decide (m2.id ≠ entry.2))).map fun m2 => m2.name) ("M_" ++ num) }
               else m }
         else s)
    else s)).materials = _
  rw [if_pos ⟨rfl, hnum.1, hnum.2⟩, hfind]
  show ((if mat.name ≠ "M_" ++ num then
      { s with materials := s.materials.map fun m =>
          if m.id = entry.2 then
            { m with name := assignUniqueName ((s.materials.filter (fun m2 => decide (m2.id ≠ entry.2))).map fun m2 => m2.name) ("M_" ++ num) }
          else m }
    else s)).materials = _
  rw [if_pos hname]
  have hassign : assignUniqueName
      ((s.materials.filter (fun m2 => decide (m2.id ≠ entry.2))).map
        fun m2 => m2.name) ("M_" ++ num) = "M_" ++ num := by
    rw [assignUniqueName, if_pos ?_]
    intro hc
    rcases List.mem_map.mp hc with ⟨m2, hm2, hm2n⟩
    have hm2mem := (List.mem_filter.mp hm2).1
    have hm2ne : m2.id ≠ entry.2 := by
      simpa using (List.mem_filter.mp hm2).2
    exact hfree m2 hm2mem hm2ne hm2n
  rw [hassign]

theorem matPhase3Step_other (s : TScene) (entry : String × Nat) (m : TMat)
    (hm : m ∈ s.materials) (hne : ¬ (m.id = entry.2)) :
    m ∈ (matPhase3Step s entry).materials := by
  rw [matPhase3Step]
  cases hsplit : splitUnder (splitextBase entry.1) with
  | none => exact hm
  | some pn =>
    show m ∈ (if pn.1 = "T" ∧ pn.2 ≠ "" ∧ pn.2.toList.all Char.isDigit then
        (match s.materials.find? (fun m => decide (m.id = entry.2)) with
         | none => s
         | some mat =>
           if mat.name ≠ "M_" ++ pn.2 then
             { s with materials := s.materials.map fun m =>
                 if m.id = entry.2 then
                   { m with name := assignUniqueName ((s.materials.filter (fun m2 => decide (m2.id ≠ entry.2))).map fun m2 => m2.name) ("M_" ++ pn.2) }
                 else m }
           else s)
      else s).materials
    by_cases hc : pn.1 = "T" ∧ pn.2 ≠ "" ∧ pn.2.toList.all Char.isDigit
    · rw [if_pos hc]
      cases hfind : s.materials.find? (fun m => decide (m.id = entry.2)) with
      | none => exact hm
      | some mat =>
        show m ∈ (if mat.name ≠ "M_" ++ pn.2 then
            { s with materials := s.materials.map fun m =>
                if m.id = entry.2 then
                  { m with name := assignUniqueName ((s.materials.filter (fun m2 => decide (m2.id ≠ entry.2))).map fun m2 => m2.name) ("M_" ++ pn.2) }
                else m }
          else s).materials
        by_cases hn : mat.name ≠ "M_" ++ pn.2
        · rw [if_pos hn]
          show m ∈ s.materials.map fun m =>
            if m.id = entry.2 then
              { m with name := assignUniqueName ((s.materials.filter (fun m2 => decide (m2.id ≠ entry.2))).map fun m2 => m2.name) ("M_" ++ pn.2) }
            else m
          refine List.mem_map.mpr ⟨m, hm, ?_⟩
          rw [if_neg hne]
        · rw [if_neg hn]
          exact hm
    · rw [if_neg hc]
      exact hm

theorem matPhase3_other :
    ∀ (entries : List (String × Nat)) (s : TScene) (m : TMat),
      m ∈ s.materials → m.id ∉ entries.map (fun e => e.2) →
      m ∈ (matPhase3 entries s).materials := by
  intro entries
  induction entries with
  | nil => intro s m hm _; exact hm
  | cons e entries ih =>
    intro s m hm hne
    show m ∈ (entries.foldl matPhase3Step (matPhase3Step s e)).materials
    have hne1 : ¬ (m.id = e.2) := fun hc =>
      hne (by rw [List.map_cons, hc]; exact List.mem_cons_self _ _)
    have hstep := matPhase3Step_other s e m hm hne1
    exact ih (matPhase3Step s e) m hstep fun hc =>
      hne (by rw [List.map_cons]; exact List.mem_cons_of_mem _ hc)

theorem matDeleteStep_found (s : TScene) (mid : Nat) (m0 : TMat)
    (hf : s.materials.find? (fun m => decide (m.id = mid)) = some m0) :
    matDeleteStep s mid =
      if matUsers s m0 = 0 then
        { s with materials := s.materials.eraseP (fun m => decide (m.id = mid)) }
      else s := by
  rw [matDeleteStep, hf]

theorem mat_delete_step_safe {s : TScene}
    (hids : (s.materials.map (fun m => m.id)).Nodup) (mid : Nat) :
    ∀ mat ∈ s.materials, mat ∉ (matDeleteStep s mid).materials →
      matUsers s mat = 0 := by
  intro mat hmem hgone
  cases hf : s.materials.find? (fun m => decide (m.id = mid)) with
  | none =>
    rw [matDeleteStep, hf] at hgone
    exact absurd hmem hgone
  | some m0 =>
    rw [matDeleteStep_found s mid m0 hf] at hgone
    by_cases hu : matUsers s m0 = 0
    · rw [if_pos hu] at hgone
      have hp : mat.id = mid := by
        simpa using mem_not_mem_eraseP hmem hgone
      have hm0 : m0 ∈ s.materials := List.mem_of_find?_eq_some hf
      have hm0id : m0.id = mid := by simpa using List.find?_some hf
      have hmm : mat = m0 :=
        nodup_map_inj hids hmem hm0 (by rw [hp, hm0id])
      rw [hmm]
      exact hu
    · rw [if_neg hu] at hgone
      exact absurd hmem hgone

/-! ### Concrete mesh scenes -/

/-- First of two geometry-identical meshes. -/
def mWit1 : Mesh :=
  { id := 1, name := "a", fakeUsers := 0, vertices := [(0, 0, 0)],
    edges := [], polygons := [] }

/-- Second of two geometry-identical meshes. -/
def mWit2 : Mesh :=
  { id := 2, name := "b", fakeUsers := 0, vertices := [(0, 0, 0)],
    edges := [], polygons := [] }

/-- A scene with one object on each duplicate mesh. -/
def msWit : MeshScene :=
  { meshes := [mWit1, mWit2], objects := [⟨10, 1⟩, ⟨11, 2⟩] }

/-! ### Claim-level theorems -/

/-- C3: in every deduplication pass, a block disappears at a deletion step
only when the user count read in the state just before that step is
exactly zero — meshes across the whole deletion loop, images and
materials at each guarded delete. -/
theorem deletion_only_at_zero_users :
    (∀ (s : MeshScene), MeshSceneWF s → ∀ i : Nat,
      ∀ m ∈ (meshDelPartial s i).meshes, m ∉ (meshDelPartial s (i + 1)).meshes →
        meshUsers (meshDelPartial s i).objects m = 0) ∧
    (∀ (s : TScene), (s.images.map (fun i => i.id)).Nodup → ∀ iid : Nat,
      ∀ img ∈ s.images, img ∉ (imageDeleteStep s iid).images →
        imageUsers s img = 0) ∧
    (∀ (s : TScene), (s.materials.map (fun m => m.id)).Nodup → ∀ mid : Nat,
      ∀ mat ∈ s.materials, mat ∉ (matDeleteStep s mid).materials →
        matUsers s mat = 0) :=
  ⟨fun s hwf i => mesh_deletion_safe s hwf i,
   fun _ hids iid => image_delete_step_safe hids iid,
   fun _ hids mid => mat_delete_step_safe hids mid⟩

/-- Witness for C3 at concrete scenes where a mesh, an image and a
material really are removed. -/
theorem deletion_only_at_zero_users_witness :
    meshUsers (meshDelPartial msWit 0).objects mWit2 = 0 ∧
    imageUsers sC9 imgLone = 0 ∧ matUsers sC10b matA = 0 :=
  ⟨deletion_only_at_zero_users.1 msWit ⟨by decide, by decide⟩ 0 mWit2
      (by decide) (by decide),
   deletion_only_at_zero_users.2.1 sC9 (by decide) 1 imgLone
      (by decide) (by decide),
   deletion_only_at_zero_users.2.2 sC10b (by decide) 10 matA
      (by decide) (by decide)⟩

/-- C4 (amended): the slot-compaction pass and the mesh pass — the
passes the claim's code sources name — are idempotent; the materials
pass, by contrast, is not (see the counterexample). -/
theorem pass_idempotence :
    (∀ o : SlotObj,
      remove_duplicate_material_slots (remove_duplicate_material_slots o) =
        remove_duplicate_material_slots o) ∧
    (∀ s : MeshScene, MeshSceneWF s →
      remove_duplicate_meshes (remove_duplicate_meshes s) =
        remove_duplicate_meshes s) :=
  ⟨slot_pass_idempotent, mesh_pass_idempotent⟩

/-- C4 counterexample: on sC4 the materials pass is not idempotent — the
second run again repoints the mesh object's slot and renames the other
duplicate material. -/
theorem pass_idempotence_counterexample :
    remove_duplicate_materials (remove_duplicate_materials sC4) ≠
      remove_duplicate_materials sC4 := by
  decide

/-- Witness for C4 at concrete inputs. -/
theorem pass_idempotence_witness :
    remove_duplicate_material_slots
        (remove_duplicate_material_slots slotExScenario) =
      remove_duplicate_material_slots slotExScenario ∧
    remove_duplicate_meshes (remove_duplicate_meshes msWit) =
      remove_duplicate_meshes msWit :=
  ⟨pass_idempotence.1 slotExScenario,
   pass_idempotence.2 msWit ⟨by decide, by decide⟩⟩

/-- C5: after the mesh pass no object points at a deleted mesh, and after
the image pass no texture node of a surviving material points at a
deleted image — each pass deletes only after its full rewrite scan. -/
theorem reference_integrity :
    (∀ (s : MeshScene), MeshSceneWF s →
      ∀ o ∈ (remove_duplicate_meshes s).objects, ∀ m ∈ s.meshes,
        m.id = o.data →
        ∃ m', m' ∈ (remove_duplicate_meshes s).meshes ∧ m'.id = o.data) ∧
    (∀ (s : TScene), (s.images.map (fun i => i.id)).Nodup →
      ∀ mat ∈ (remove_duplicate_images s).materials,
      ∀ n ∈ mat.nodeTree.getD [], ∀ img ∈ s.images,
        n.image = some img.id →
        img.id ∈ (remove_duplicate_images s).images.map (fun i => i.id)) :=
  ⟨mesh_reference_integrity, image_reference_integrity⟩

/-- Witness for C5 at concrete scenes with a genuine duplicate each. -/
theorem reference_integrity_witness :
    (∃ m', m' ∈ (remove_duplicate_meshes msWit).meshes ∧
      m'.id = (MObj.mk 10 1).data) ∧
    (1 : Nat) ∈ (remove_duplicate_images sC9b).images.map (fun i => i.id) :=
  ⟨reference_integrity.1 msWit ⟨by decide, by decide⟩ (MObj.mk 10 1)
      (by decide) mWit1 (by decide) (by decide),
   reference_integrity.2 sC9b (by decide)
      ⟨10, "M", true, some [⟨true, some 1⟩], 0⟩ (by decide)
      ⟨true, some 1⟩ (by decide) imgD1 (by decide) (by decide)⟩

/-- C6: under the fixed enumeration order each pass uses, the survivor of
an equivalence group is the first-encountered member — the mesh map binds
every hash to the first user-having mesh of that hash, and each image
hash group lists the eligible images in encounter order, its head being
the first eligible image of that hash; both sides are functions of the
scene alone, so an identical rerun picks the same survivor. -/
theorem survivor_first_encountered :
    (∀ (s : MeshScene), (s.meshes.map (fun m => m.id)).Nodup →
      ∀ h : GeomHash, alookup (meshPass1 s).map h =
        (firstSurvivor s s.meshes h).map (fun m => m.id)) ∧
    (∀ (s : TScene) (h : List Nat) (l : List TImage),
      alookup (imageGroups s) h = some l →
        l.head? = (eligibleImages s).find? fun i => decide (i.pixels = h)) := by
  constructor
  · intro s hids h
    exact (meshPass1_inv s hids).1 h
  · intro s h l hl
    rw [imageGroups_char, alookup_keys_map] at hl
    by_cases hmem : h ∈ firstSeenKeys (eligibleImages s)
    · rw [if_pos hmem] at hl
      have hleq : l = (eligibleImages s).filter fun i => decide (i.pixels = h) :=
        (Option.some.inj hl).symm
      rw [hleq, filter_head?_eq_find?]
    · rw [if_neg hmem] at hl
      exact Option.noConfusion hl

/-- Witness for C6 at concrete scenes. -/
theorem survivor_first_encountered_witness :
    alookup (meshPass1 msWit).map (geomHash mWit1) =
      (firstSurvivor msWit msWit.meshes (geomHash mWit1)).map (fun m => m.id) ∧
    ([imgD1, imgD2] : List TImage).head? =
      (eligibleImages sC9b).find? (fun i => decide (i.pixels = [5])) :=
  ⟨survivor_first_encountered.1 msWit (by decide) (geomHash mWit1),
   survivor_first_encountered.2 sC9b [5] [imgD1, imgD2] (by decide)⟩

/-- Witness for C8 at the spec scenario: the rename branch on sC8, the
consolidation branch on sC8b. -/
theorem remap_mapping_rule_witness :
    remapPhase1 mapC8 sC8 =
      ({ sC8 with images := sC8.images.map fun (x : TImage) =>
          if x.id = imgT39b.id then { x with name := "M_39" } else x }, []) ∧
    remapPhase1 mapC8 sC8b =
      ({ sC8b with materials := sC8b.materials.map fun (mat : TMat) =>
          match mat.nodeTree with
          | some nodes =>
            { mat with nodeTree := some (nodes.map fun (n : TexNode) =>
                if n.isTexImage = true ∧ n.image = some imgT39b.id then
                  { n with image := some imgM39.id }
                else n) }
          | none => mat },
        [imgT39b.id]) :=
  ⟨(remap_mapping_rule mapC8 sC8 (by decide) imgT39b (by decide) "M_39"
      (by decide) (by decide)).1 (by decide),
   (remap_mapping_rule mapC8 sC8b (by decide) imgT39b (by decide) "M_39"
      (by decide) (by decide)).2 imgM39 (by decide) (by decide)⟩

/-- C9 (amended): the remap pass always ends by rewriting every packed
image's filepath to its name; the duplicate-image pass does so only when
a duplicate group exists, returning the scene untouched otherwise; the
final rewrite leaves unpacked image records unchanged. -/
theorem filepath_overwrite_guarded :
    (∀ (lines : List String) (s : TScene),
      ∀ i ∈ (remap_textures lines s).images, i.packed = true →
        i.filepath = i.name) ∧
    (∀ s : TScene,
      (imageGroups s).any (fun e => decide (1 < e.2.length)) = true →
      ∀ i ∈ (remove_duplicate_images s).images, i.packed = true →
        i.filepath = i.name) ∧
    (∀ s : TScene,
      ¬ ((imageGroups s).any (fun e => decide (1 < e.2.length)) = true) →
      remove_duplicate_images s = s) ∧
    (∀ x : TScene, ∀ i ∈ x.images, i.packed = false →
      i ∈ (rename_image_paths x).images) := by
  refine ⟨?_, ?_, ?_, rename_paths_unpacked⟩
  · intro lines s
    rw [remap_textures_phase1]
    exact rename_paths_packed _
  · intro s hdup
    rw [remove_duplicate_images, if_pos hdup]
    exact rename_paths_packed _
  · intro s hdup
    rw [remove_duplicate_images, if_neg hdup]

/-- C9 counterexample: on a scene with a single packed image whose
filepath differs from its name, the duplicate-image pass returns early
and rewrites no filepath at all. -/
theorem filepath_overwrite_counterexample :
    remove_duplicate_images sC9 = sC9 ∧
    ¬ (∀ i ∈ (remove_duplicate_images sC9).images, i.packed = true →
        i.filepath = i.name) := by
  decide

/-- Witness for C9 at concrete scenes. -/
theorem filepath_overwrite_witness :
    (∀ i ∈ (remap_textures mapC8 sC8).images, i.packed = true →
      i.filepath = i.name) ∧
    (∀ i ∈ (remove_duplicate_images sC9b).images, i.packed = true →
      i.filepath = i.name) :=
  ⟨filepath_overwrite_guarded.1 mapC8 sC8,
   filepath_overwrite_guarded.2.1 sC9b (by decide)⟩

/-- C10 (amended): phase 1 records, per image in collection order, the
first linked material under the image's name; phase 3 renames a recorded
material to exactly M_digits when the image's base name is T_digits and
no other material holds that name, leaves the scene untouched when the
base name does not split at an underscore or does not have the T_digits
shape, and never touches a material no record points at. A collision
instead yields a host-suffixed name, as the counterexample shows. -/
theorem material_rename_rule :
    (∀ s : TScene, matImap s = (sortByNameI s.images).filterMap fun img =>
      (linkedMaterials s.materials img.id).head?.map fun m =>
        (img.name, m.id)) ∧
    (∀ (s : TScene) (entry : String × Nat) (num : String) (mat : TMat),
      splitUnder (splitextBase entry.1) = some ("T", num) →
      num ≠ "" ∧ num.toList.all Char.isDigit = true →
      s.materials.find? (fun m => decide (m.id = entry.2)) = some mat →
      mat.name ≠ "M_" ++ num →
      (∀ m2 ∈ s.materials, m2.id ≠ entry.2 → m2.name ≠ "M_" ++ num) →
      (matPhase3Step s entry).materials = s.materials.map fun m =>
        if m.id = entry.2 then { m with name := "M_" ++ num } else m) ∧
    (∀ (s : TScene) (entry : String × Nat) (pn : String × String),
      splitUnder (splitextBase entry.1) = some pn →
      ¬ (pn.1 = "T" ∧ pn.2 ≠ "" ∧ pn.2.toList.all Char.isDigit) →
      matPhase3Step s entry = s) ∧
    (∀ (entries : List (String × Nat)) (s : TScene) (m : TMat),
      m ∈ s.materials → m.id ∉ entries.map (fun e => e.2) →
      m ∈ (matPhase3 entries s).materials) :=
  ⟨matImap_char, matPhase3Step_rename, matPhase3Step_notT, matPhase3_other⟩

/-- C10 counterexample: on sC10, where a material named M_39 already
exists, the first linked material of T_39.png ends as M_39.001, not
M_39. -/
theorem material_rename_counterexample :
    (remove_duplicate_materials sC10).materials.map (fun m => (m.id, m.name)) =
      [(10, "M_39.001"), (11, "M_39")] ∧
    ¬ (∃ m ∈ (remove_duplicate_materials sC10).materials,
        m.id = matA.id ∧ m.name = "M_39") := by
  decide

/-- Witness for C10 at the collision-free scene. -/
theorem material_rename_rule_witness :
    matImap sC10b = [("T_39.png", 10)] ∧
    (matPhase3Step sC10b ("T_39.png", 10)).materials =
      sC10b.materials.map fun (m : TMat) =>
        if m.id = 10 then { m with name := "M_" ++ "39" } else m :=
  ⟨by rw [material_rename_rule.1 sC10b]; decide,
   material_rename_rule.2.1 sC10b ("T_39.png", 10) "39" matA (by decide)
      (by decide) (by decide) (by decide) (by decide)⟩
